import Mathlib

/-!
Verification of the KubeVirt domain-schema data model and its wire-format
codecs, following the repository's specification and test suite.  The domain
data model, the alias type, the launch-security variant, the architecture
defaulter and the XML codec are embedded shallowly: Go structs become Lean
structures (pointers become `Option`, slices become `List`), and the XML
documents produced by `encoding/xml` are represented as a tree of elements
with attribute lists and text nodes.  The `pkg/util/amd64.go` helpers are
translated directly from their Go source.
-/

set_option maxRecDepth 4096
set_option linter.dupNamespace false
set_option linter.unusedVariables false

/-! ### Decimal rendering and parsing of natural numbers

Models Go's decimal formatting of unsigned integers in XML attributes and
character data (`strconv` via `encoding/xml`), together with the decimal
parser used on decode. -/

/-- Little-endian decimal digits of `n`, with explicit fuel so that the
definition is structurally recursive (the fuel `n + 1` always suffices). -/
def natDigitsRevFuel : Nat → Nat → List Nat
  | 0, _ => []
  | fuel + 1, n => if n < 10 then [n] else n % 10 :: natDigitsRevFuel fuel (n / 10)

/-- Little-endian decimal digits of `n`. -/
def natDigitsRev (n : Nat) : List Nat := natDigitsRevFuel (n + 1) n

/-- Value of a little-endian digit list. -/
def digitsVal : List Nat → Nat
  | [] => 0
  | d :: ds => d + 10 * digitsVal ds

/-- The character for a decimal digit. -/
def digitChar (d : Nat) : Char := Char.ofNat (48 + d)

/-- Decimal rendering of a natural number, most significant digit first. -/
def renderNat (n : Nat) : String := String.mk ((natDigitsRev n).reverse.map digitChar)

/-- Parse one decimal digit character. -/
def charDigit (c : Char) : Option Nat :=
  if 48 ≤ c.toNat ∧ c.toNat ≤ 57 then some (c.toNat - 48) else none

/-- Parse a list of decimal digit characters (most significant first). -/
def parseDigits : List Char → Option (List Nat)
  | [] => some []
  | c :: cs =>
    match charDigit c, parseDigits cs with
    | some d, some ds => some (d :: ds)
    | _, _ => none

/-- Parse a decimal string to a natural number; fails on empty input or any
non-digit character. -/
def parseNat (s : String) : Option Nat :=
  if s.data.isEmpty then none
  else (parseDigits s.data).map (fun ds => digitsVal ds.reverse)

/-! ### XML document trees

An XML document as produced by `encoding/xml`: an element has a name, an
attribute list and a list of children, a child being an element or character
data.  The codec below never depends on attribute order, and list-valued
fields are decoded in document order, mirroring the Go decoder. -/

/-- An XML node: an element with attributes and children, or character data. -/
inductive XNode where
  | elem : String → List (String × String) → List XNode → XNode
  | text : String → XNode

/-- Name of an element node (`""` for character data). -/
def nodeName : XNode → String
  | .elem n _ _ => n
  | .text _ => ""

/-- Attributes of an element node. -/
def attrsOf : XNode → List (String × String)
  | .elem _ a _ => a
  | .text _ => []

/-- Children of an element node. -/
def childrenOf : XNode → List XNode
  | .elem _ _ c => c
  | .text _ => []

/-- Whether a node is an element with the given name. -/
def isNamed (n : String) (x : XNode) : Bool := nodeName x == n

/-- First child element with the given name (the Go decoder assigns a
non-list field from the matching element). -/
def findNamed (n : String) : List XNode → Option XNode
  | [] => none
  | x :: xs => if nodeName x = n then some x else findNamed n xs

/-- All child elements with the given name, in document order (the Go
decoder appends matching elements to a slice field in encounter order). -/
def allNamed (n : String) : List XNode → List XNode
  | [] => []
  | x :: xs => if nodeName x = n then x :: allNamed n xs else allNamed n xs

/-- Whether some child element has the given name. -/
def hasChildNamed (n : String) (x : XNode) : Bool := (childrenOf x).any (isNamed n)

/-- Character data directly inside an element consisting of a single text
child; `""` otherwise (an element with no children decodes to the empty
string, as in Go). -/
def textOf (x : XNode) : String :=
  match childrenOf x with
  | [XNode.text s] => s
  | _ => ""

/-- Attribute lookup by key. -/
def lookupAttr (k : String) (attrs : List (String × String)) : Option String :=
  (attrs.find? (fun p => p.1 == k)).map (fun p => p.2)

/-- Build an attribute list from optional values: an entry with value `none`
is omitted entirely, modelling `omitempty` attributes. -/
def collectAttrs : List (String × Option String) → List (String × String)
  | [] => []
  | (_, none) :: l => collectAttrs l
  | (k, some v) :: l => (k, v) :: collectAttrs l

/-- An optional string attribute value: omitted when empty (`omitempty`). -/
def strOpt (s : String) : Option String := if s = "" then none else some s

/-- Read a string attribute, `""` when absent (Go leaves the field zero). -/
def getStr (k : String) (x : XNode) : String := (lookupAttr k (attrsOf x)).getD ""

/-- Read a numeric attribute: absent decodes to `0` (Go leaves the field
zero), a present non-numeric value is a decode error. -/
def getNat (k : String) (x : XNode) : Option Nat :=
  match lookupAttr k (attrsOf x) with
  | none => some 0
  | some s => parseNat s

/-- Read an optional numeric attribute (a `*uint` field with `omitempty`). -/
def getONat (k : String) (x : XNode) : Option (Option Nat) :=
  match lookupAttr k (attrsOf x) with
  | none => some none
  | some s => (parseNat s).map some

/-- Children contributed by an optional sub-element: absent means absent. -/
def oChild : Option XNode → List XNode
  | none => []
  | some x => [x]

/-- An optional text-content child element, omitted when the value is empty. -/
def optText (tag : String) (s : String) : List XNode :=
  if s = "" then [] else [XNode.elem tag [] [XNode.text s]]

/-- Decode every node of a list, failing if any single decode fails
(the Go decoder surfaces the first child's error). -/
def decodeList (f : XNode → Option α) : List XNode → Option (List α)
  | [] => some []
  | x :: xs =>
    match f x, decodeList f xs with
    | some a, some l => some (a :: l)
    | _, _ => none

/-- Decode an optional sub-element: absence is not an error. -/
def decodeOpt (f : XNode → Option α) : Option XNode → Option (Option α)
  | none => some none
  | some x => (f x).map some

/-! ### The Alias type

Modelled from the spec: the `Alias` implementation (constructors, accessors
and its custom XML/JSON codecs) is not part of the visible source, which
contains only its tests.  Per §4.2 of the spec, an alias holds a private
name and a private user-defined flag; on the XML wire a user-defined alias
carries the `ua-` prefix on the `name` attribute and the flag is
reconstructed purely by prefix detection on decode; the JSON codec writes
the keys `Name` and `UserDefined` explicitly. -/

/-- A device alias: private bare name and user-defined flag. -/
structure Alias where
  name : String
  userDefined : Bool
deriving DecidableEq, Repr

/-- Construct a user-defined alias from a bare name. -/
def NewUserDefinedAlias (aliasName : String) : Alias := ⟨aliasName, true⟩

/-- Construct a system-managed (libvirt-assigned) alias from a bare name. -/
def newLibvirtManagedAlias (aliasName : String) : Alias := ⟨aliasName, false⟩

/-- `Alias.GetName`: the bare name, never including the wire prefix. -/
def Alias.GetName (a : Alias) : String := a.name

/-- `Alias.IsUserDefined`. -/
def Alias.IsUserDefined (a : Alias) : Bool := a.userDefined

/-- The `ua-` user-alias marker, as a character list. -/
def uaChars : List Char := ['u', 'a', '-']

/-- Whether a wire name carries the `ua-` marker
(models `strings.HasPrefix(name, "ua-")`). -/
def uaPrefixed (s : String) : Bool := decide (s.data.take 3 = uaChars)

/-- Strip the `ua-` marker (models `strings.TrimPrefix(name, "ua-")` on a
string known to carry the marker). -/
def dropUA (s : String) : String := String.mk (s.data.drop 3)

/-- The name attribute value an alias puts on the wire. -/
def Alias.wireName (a : Alias) : String :=
  if a.userDefined then String.mk uaChars ++ a.name else a.name

/-- XML encoding of an alias under a given element name (standalone Go
marshalling uses the struct name `Alias`; inside a domain the field tag
`alias` applies). -/
def marshalAliasAs (tag : String) (a : Alias) : XNode :=
  XNode.elem tag [("name", a.wireName)] []

/-- XML decoding of an alias: read the `name` attribute and reconstruct the
user-defined flag purely by `ua-` prefix detection. -/
def unmarshalAlias (x : XNode) : Option Alias :=
  let w := getStr "name" x
  if uaPrefixed w then some ⟨dropUA w, true⟩ else some ⟨w, false⟩

/-- JSON encoding of an alias.  Modelled from the spec: the JSON codec for
the private fields is not in the visible source; per §4.2 it emits exactly
the object keyed `Name` and `UserDefined`. -/
def marshalAliasJSON (a : Alias) : String :=
  "\x7b\"Name\":\"" ++ a.name ++ "\",\"UserDefined\":" ++
    (if a.userDefined then "true" else "false") ++ "\x7d"

/-- The opening-brace character. -/
def braceOpen : Char := Char.ofNat 123

/-- The closing-brace character. -/
def braceClose : Char := Char.ofNat 125

/-- The double-quote character. -/
def quoteChar : Char := Char.ofNat 34

/-- The colon character. -/
def colonChar : Char := Char.ofNat 58

/-- The comma character. -/
def commaChar : Char := Char.ofNat 44

/-- The characters of the JSON prelude up to the start of the name value. -/
def jsonHeadChars : List Char :=
  [braceOpen, quoteChar, 'N', 'a', 'm', 'e', quoteChar, colonChar, quoteChar]

/-- The characters between the name value and the flag value. -/
def jsonMidChars : List Char :=
  [quoteChar, commaChar, quoteChar, 'U', 's', 'e', 'r', 'D', 'e', 'f', 'i', 'n', 'e', 'd',
   quoteChar, colonChar]

/-- The tail of the serialized object when the flag is true. -/
def jsonTrueChars : List Char := ['t', 'r', 'u', 'e', braceClose]

/-- The tail of the serialized object when the flag is false. -/
def jsonFalseChars : List Char := ['f', 'a', 'l', 's', 'e', braceClose]

/-- Strip an expected literal from the front of a character stream. -/
def stripPre : List Char → List Char → Option (List Char)
  | [], l => some l
  | _ :: _, [] => none
  | p :: ps, c :: cs => if c = p then stripPre ps cs else none

/-- Split a character stream at the first double quote. -/
def splitAtQuote : List Char → Option (List Char × List Char)
  | [] => none
  | c :: cs =>
    if c = quoteChar then some ([], quoteChar :: cs)
    else
      match splitAtQuote cs with
      | some (n, r) => some (c :: n, r)
      | none => none

/-- JSON decoding of an alias object of the shape produced by
`marshalAliasJSON`: both the name and the flag ride explicitly on the wire. -/
def unmarshalAliasJSON (s : String) : Option Alias :=
  match stripPre jsonHeadChars s.data with
  | none => none
  | some rest =>
    match splitAtQuote rest with
    | none => none
    | some (nm, rest2) =>
      match stripPre jsonMidChars rest2 with
      | none => none
      | some tail =>
        if tail = jsonTrueChars then some ⟨String.mk nm, true⟩
        else if tail = jsonFalseChars then some ⟨String.mk nm, false⟩
        else none

/-! ### The Domain data model

Modelled from the spec: the schema definitions (`DomainSpec` and its device
tree, §3 of the spec) and their `encoding/xml` codec are not part of the
visible source, which contains only their tests.  Field shapes follow the
spec's data-model section and the values constructed by the test suite:
Go pointer fields become `Option`, slices become `List`, unsigned integers
become `Nat`. -/

/-- Periodic memballoon statistics (`<stats period="..."/>`). -/
structure Stats where
  Period : Nat
deriving DecidableEq, Repr

/-- The memory balloon device: a real model carries optional statistics, the
`"none"` model suppresses them on the wire. -/
structure MemBalloon where
  Model : String
  Stats : Option Stats
deriving DecidableEq, Repr

/-- Disk driver description. -/
structure DiskDriver where
  Name : String
  Type_ : String
deriving DecidableEq, Repr

/-- Network host of a network disk source. -/
structure DiskSourceHost where
  Name : String
  Port : String
deriving DecidableEq, Repr

/-- Disk source: network protocol/name/host, local file, or block device. -/
structure DiskSource where
  Protocol : String
  Name : String
  File : String
  Dev : String
  Host : Option DiskSourceHost
deriving DecidableEq, Repr

/-- Disk target device name. -/
structure DiskTarget where
  Device : String
deriving DecidableEq, Repr

/-- A disk device. -/
structure Disk where
  Type_ : String
  Device : String
  Driver : Option DiskDriver
  Source : DiskSource
  Target : DiskTarget
  Alias : Option Alias
deriving DecidableEq, Repr

/-- An input device. -/
structure Input where
  Type_ : String
  Bus : String
  Alias : Option Alias
deriving DecidableEq, Repr

/-- Video model description. -/
structure VideoModel where
  Type_ : String
  Heads : Option Nat
  VRam : Option Nat
deriving DecidableEq, Repr

/-- A video device. -/
structure Video where
  Model : VideoModel
deriving DecidableEq, Repr

/-- A console device. -/
structure Console where
  Type_ : String
deriving DecidableEq, Repr

/-- A watchdog device. -/
structure Watchdog where
  Model : String
  Action : String
  Alias : Option Alias
deriving DecidableEq, Repr

/-- Random-number generator backend. -/
structure RngBackend where
  Model : String
  Source : String
deriving DecidableEq, Repr

/-- A random-number generator device. -/
structure Rng where
  Model : String
  Backend : Option RngBackend
deriving DecidableEq, Repr

/-- A controller device. -/
structure Controller where
  Type_ : String
  Index : String
  Model : String
deriving DecidableEq, Repr

/-- VSOCK context id. -/
structure CID where
  Auto : String
  Address : Nat
deriving DecidableEq, Repr

/-- A VSOCK device. -/
structure VSOCK where
  Model : String
  CID : CID
deriving DecidableEq, Repr

/-- The ordered device collections of a domain. -/
structure Devices where
  Disks : List Disk
  Inputs : List Input
  Video : List Video
  Consoles : List Console
  Watchdogs : List Watchdog
  Rng : Option Rng
  Controllers : List Controller
  Ballooning : Option MemBalloon
  VSOCK : Option VSOCK
deriving DecidableEq, Repr

/-- CPU topology (`sockets`/`cores`/`threads`). -/
structure CPUTopology where
  Sockets : Nat
  Cores : Nat
  Threads : Nat
deriving DecidableEq, Repr

/-- A per-core CPU feature policy. -/
structure CPUFeature where
  Name : String
  Policy : String
deriving DecidableEq, Repr

/-- A NUMA cell: the memory amount carries a verbatim unit attribute. -/
structure NUMACell where
  ID : String
  CPUs : String
  Memory : Nat
  Unit : String
deriving DecidableEq, Repr

/-- NUMA cell layout of the guest CPU. -/
structure NUMA where
  Cells : List NUMACell
deriving DecidableEq, Repr

/-- Guest CPU description. -/
structure CPU where
  Mode : String
  Model : String
  Features : List CPUFeature
  Topology : Option CPUTopology
  NUMA : Option NUMA
deriving DecidableEq, Repr

/-- vCPU placement and count. -/
structure VCPU where
  Placement : String
  CPUs : Nat
deriving DecidableEq, Repr

/-- Pin of one vCPU to a host CPU set. -/
structure CPUTuneVCPUPin where
  VCPU : Nat
  CPUSet : String
deriving DecidableEq, Repr

/-- Pin of one IO thread to a host CPU set. -/
structure CPUTuneIOThreadPin where
  IOThread : Nat
  CPUSet : String
deriving DecidableEq, Repr

/-- Pin of the emulator thread to a host CPU set. -/
structure CPUEmulatorPin where
  CPUSet : String
deriving DecidableEq, Repr

/-- CPU pinning: ordered pin collections, no implicit sorting. -/
structure CPUTune where
  VCPUPin : List CPUTuneVCPUPin
  IOThreadPin : List CPUTuneIOThreadPin
  EmulatorPin : Option CPUEmulatorPin
deriving DecidableEq, Repr

/-- NUMA tuning memory policy. -/
structure NumaTuneMemory where
  Mode : String
  NodeSet : String
deriving DecidableEq, Repr

/-- Per-cell NUMA tuning override. -/
structure MemNode where
  CellID : Nat
  Mode : String
  NodeSet : String
deriving DecidableEq, Repr

/-- NUMA tuning: global memory policy plus ordered per-cell overrides. -/
structure NUMATune where
  Memory : NumaTuneMemory
  MemNodes : List MemNode
deriving DecidableEq, Repr

/-- IO thread count. -/
structure IOThreads where
  IOThreads : Nat
deriving DecidableEq, Repr

/-- A feature present with no further state (`<acpi/>`). -/
structure FeatureEnabled where
deriving DecidableEq, Repr

/-- A feature with an on/off state attribute. -/
structure FeatureState where
  State : String
deriving DecidableEq, Repr

/-- KVM sub-features. -/
structure FeatureKVM where
  Hidden : Option FeatureState
  HintDedicated : Option FeatureState
deriving DecidableEq, Repr

/-- Paravirtual spinlock state. -/
structure FeaturePVSpinlock where
  State : String
deriving DecidableEq, Repr

/-- Independently-present feature toggles. -/
structure Features where
  ACPI : Option FeatureEnabled
  SMM : Option FeatureEnabled
  KVM : Option FeatureKVM
  PVSpinlock : Option FeaturePVSpinlock
  PMU : Option FeatureState
deriving DecidableEq, Repr

/-- A sysinfo vendor entry keyed by name. -/
structure Entry where
  Name : String
  Value : String
deriving DecidableEq, Repr

/-- System information (smbios entries). -/
structure SysInfo where
  Type_ : String
  System : List Entry
deriving DecidableEq, Repr

/-- Grace-period metadata. -/
structure GracePeriodMetadata where
  DeletionGracePeriodSeconds : Nat
deriving DecidableEq, Repr

/-- KubeVirt metadata namespace: stable UID and optional grace period. -/
structure KubeVirtMetadata where
  UID : String
  GracePeriod : Option GracePeriodMetadata
deriving DecidableEq, Repr

/-- Domain metadata. -/
structure Metadata where
  KubeVirt : KubeVirtMetadata
deriving DecidableEq, Repr

/-- The AMD launch-security payload (fields for SEV and SEV-SNP). -/
structure AMDLaunchSecurity where
  Policy : String
  AuthorKey : String
  VCEK : String
  IdAuth : String
  IdBlock : String
  HostData : String
  DHCert : String
  Session : String
  Cbitpos : String
  ReducedPhysBits : String
deriving DecidableEq, Repr

/-- Launch security: opaque type discriminator plus optional AMD payload. -/
structure LaunchSecurity where
  Type_ : String
  AMD : Option AMDLaunchSecurity
deriving DecidableEq, Repr

/-- The XML-serializable domain tree (§3 of the spec). `XMLName` is the root
element's local name as recorded by the codec; `XmlNS` the declared default
namespace. -/
structure DomainSpec where
  XMLName : String
  XmlNS : String
  Type_ : String
  CPU : CPU
  VCPU : Option VCPU
  CPUTune : Option CPUTune
  NUMATune : Option NUMATune
  IOThreads : Option IOThreads
  Devices : Devices
  Features : Option Features
  SysInfo : Option SysInfo
  Metadata : Metadata
  LaunchSecurity : Option LaunchSecurity
deriving DecidableEq, Repr

/-- The root aggregate: serializable spec plus non-serialized metadata. -/
structure Domain where
  Namespace : String
  Name : String
  Spec : DomainSpec
deriving DecidableEq, Repr

/-- The empty AMD payload. -/
def emptyAMD : AMDLaunchSecurity := ⟨"", "", "", "", "", "", "", "", "", ""⟩

/-- The empty disk source. -/
def emptyDiskSource : DiskSource := ⟨"", "", "", "", none⟩

/-- The empty disk target. -/
def emptyDiskTarget : DiskTarget := ⟨""⟩

/-- The empty NUMA tuning memory policy. -/
def emptyNumaTuneMemory : NumaTuneMemory := ⟨"", ""⟩

/-- The empty CID. -/
def emptyCID : CID := ⟨"", 0⟩

/-- The empty device collection. -/
def emptyDevices : Devices := ⟨[], [], [], [], [], none, [], none, none⟩

/-- The empty guest CPU description. -/
def emptyCPU : CPU := ⟨"", "", [], none, none⟩

/-- The empty metadata. -/
def emptyMetadata : Metadata := ⟨⟨"", none⟩⟩

/-- The fixed default namespace constant. -/
def nsConst : String := "http://libvirt.org/schemas/domain/qemu/1.0"

/-! ### The XML codec

Modelled from the spec: the codec is `encoding/xml` marshalling of the
schema structs with their field tags, plus the custom rules the spec
names (alias prefixing, memballoon stats suppression, launch-security
child omission).  Marshalling builds the element tree; unmarshalling
dispatches children by element name (order-independent for scalar fields,
document-order for list fields) and reads attributes by key. -/

/-- Text content read from an optional child element (`""` when absent). -/
def textD : Option XNode → String
  | none => ""
  | some e => textOf e

/-- Decode a child element that Go stores in a non-pointer field: an absent
element leaves the field at its zero value. -/
def decodeDefault (f : XNode → Option α) (dflt : α) : Option XNode → Option α
  | none => some dflt
  | some x => f x

/-- Children contributed by a list of optional text elements with fixed
tags, each omitted when its value is empty. -/
def collectTexts : List (String × String) → List XNode
  | [] => []
  | (tag, s) :: l => optText tag s ++ collectTexts l

def marshalStats (s : Stats) : XNode :=
  XNode.elem "stats" (collectAttrs [("period", some (renderNat s.Period))]) []

def unmarshalStats (x : XNode) : Option Stats :=
  (getNat "period" x).map Stats.mk

/-- Marshal a memballoon: the `"none"` model never emits children, a real
model carries its optional `<stats>` child. -/
def marshalMemBalloon (b : MemBalloon) : XNode :=
  XNode.elem "memballoon" (collectAttrs [("model", strOpt b.Model)])
    (if b.Model = "none" then [] else oChild (b.Stats.map marshalStats))

def unmarshalMemBalloon (x : XNode) : Option MemBalloon :=
  (decodeOpt unmarshalStats (findNamed "stats" (childrenOf x))).bind fun st =>
  some ⟨getStr "model" x, st⟩

def marshalDiskDriver (d : DiskDriver) : XNode :=
  XNode.elem "driver" (collectAttrs [("name", strOpt d.Name), ("type", strOpt d.Type_)]) []

def unmarshalDiskDriver (x : XNode) : Option DiskDriver :=
  some ⟨getStr "name" x, getStr "type" x⟩

def marshalDiskSourceHost (h : DiskSourceHost) : XNode :=
  XNode.elem "host" (collectAttrs [("name", strOpt h.Name), ("port", strOpt h.Port)]) []

def unmarshalDiskSourceHost (x : XNode) : Option DiskSourceHost :=
  some ⟨getStr "name" x, getStr "port" x⟩

def marshalDiskSource (s : DiskSource) : XNode :=
  XNode.elem "source"
    (collectAttrs [("protocol", strOpt s.Protocol), ("name", strOpt s.Name),
      ("file", strOpt s.File), ("dev", strOpt s.Dev)])
    (oChild (s.Host.map marshalDiskSourceHost))

def unmarshalDiskSource (x : XNode) : Option DiskSource :=
  (decodeOpt unmarshalDiskSourceHost (findNamed "host" (childrenOf x))).bind fun h =>
  some ⟨getStr "protocol" x, getStr "name" x, getStr "file" x, getStr "dev" x, h⟩

def marshalDiskTarget (t : DiskTarget) : XNode :=
  XNode.elem "target" (collectAttrs [("dev", strOpt t.Device)]) []

def unmarshalDiskTarget (x : XNode) : Option DiskTarget :=
  some ⟨getStr "dev" x⟩

def marshalDisk (d : Disk) : XNode :=
  XNode.elem "disk" (collectAttrs [("type", strOpt d.Type_), ("device", strOpt d.Device)])
    (oChild (d.Driver.map marshalDiskDriver) ++ [marshalDiskSource d.Source]
      ++ [marshalDiskTarget d.Target] ++ oChild (d.Alias.map (marshalAliasAs "alias")))

def unmarshalDisk (x : XNode) : Option Disk :=
  (decodeOpt unmarshalDiskDriver (findNamed "driver" (childrenOf x))).bind fun drv =>
  (decodeDefault unmarshalDiskSource emptyDiskSource (findNamed "source" (childrenOf x))).bind fun src =>
  (decodeDefault unmarshalDiskTarget emptyDiskTarget (findNamed "target" (childrenOf x))).bind fun tgt =>
  (decodeOpt unmarshalAlias (findNamed "alias" (childrenOf x))).bind fun al =>
  some ⟨getStr "type" x, getStr "device" x, drv, src, tgt, al⟩

def marshalInput (i : Input) : XNode :=
  XNode.elem "input" (collectAttrs [("type", strOpt i.Type_), ("bus", strOpt i.Bus)])
    (oChild (i.Alias.map (marshalAliasAs "alias")))

def unmarshalInput (x : XNode) : Option Input :=
  (decodeOpt unmarshalAlias (findNamed "alias" (childrenOf x))).bind fun al =>
  some ⟨getStr "type" x, getStr "bus" x, al⟩

def marshalVideoModel (m : VideoModel) : XNode :=
  XNode.elem "model"
    (collectAttrs [("type", strOpt m.Type_), ("heads", m.Heads.map renderNat),
      ("vram", m.VRam.map renderNat)]) []

def unmarshalVideoModel (x : XNode) : Option VideoModel :=
  (getONat "heads" x).bind fun heads =>
  (getONat "vram" x).bind fun vram =>
  some ⟨getStr "type" x, heads, vram⟩

def marshalVideo (v : Video) : XNode :=
  XNode.elem "video" [] [marshalVideoModel v.Model]

def unmarshalVideo (x : XNode) : Option Video :=
  (decodeDefault unmarshalVideoModel ⟨"", none, none⟩ (findNamed "model" (childrenOf x))).bind
    fun m => some ⟨m⟩

def marshalConsole (c : Console) : XNode :=
  XNode.elem "console" (collectAttrs [("type", strOpt c.Type_)]) []

def unmarshalConsole (x : XNode) : Option Console :=
  some ⟨getStr "type" x⟩

def marshalWatchdog (w : Watchdog) : XNode :=
  XNode.elem "watchdog" (collectAttrs [("model", strOpt w.Model), ("action", strOpt w.Action)])
    (oChild (w.Alias.map (marshalAliasAs "alias")))

def unmarshalWatchdog (x : XNode) : Option Watchdog :=
  (decodeOpt unmarshalAlias (findNamed "alias" (childrenOf x))).bind fun al =>
  some ⟨getStr "model" x, getStr "action" x, al⟩

def marshalRngBackend (b : RngBackend) : XNode :=
  XNode.elem "backend" (collectAttrs [("model", strOpt b.Model)]) [XNode.text b.Source]

def unmarshalRngBackend (x : XNode) : Option RngBackend :=
  some ⟨getStr "model" x, textOf x⟩

def marshalRng (r : Rng) : XNode :=
  XNode.elem "rng" (collectAttrs [("model", strOpt r.Model)])
    (oChild (r.Backend.map marshalRngBackend))

def unmarshalRng (x : XNode) : Option Rng :=
  (decodeOpt unmarshalRngBackend (findNamed "backend" (childrenOf x))).bind fun b =>
  some ⟨getStr "model" x, b⟩

def marshalController (c : Controller) : XNode :=
  XNode.elem "controller"
    (collectAttrs [("type", strOpt c.Type_), ("index", strOpt c.Index),
      ("model", strOpt c.Model)]) []

def unmarshalController (x : XNode) : Option Controller :=
  some ⟨getStr "type" x, getStr "index" x, getStr "model" x⟩

def marshalCID (c : CID) : XNode :=
  XNode.elem "cid"
    (collectAttrs [("auto", strOpt c.Auto), ("address", some (renderNat c.Address))]) []

def unmarshalCID (x : XNode) : Option CID :=
  (getNat "address" x).bind fun addr =>
  some ⟨getStr "auto" x, addr⟩

def marshalVSOCK (v : VSOCK) : XNode :=
  XNode.elem "vsock" (collectAttrs [("model", strOpt v.Model)]) [marshalCID v.CID]

def unmarshalVSOCK (x : XNode) : Option VSOCK :=
  (decodeDefault unmarshalCID emptyCID (findNamed "cid" (childrenOf x))).bind fun c =>
  some ⟨getStr "model" x, c⟩

def marshalDevices (d : Devices) : XNode :=
  XNode.elem "devices" []
    (d.Disks.map marshalDisk ++ d.Inputs.map marshalInput ++ d.Video.map marshalVideo
      ++ d.Consoles.map marshalConsole ++ d.Watchdogs.map marshalWatchdog
      ++ oChild (d.Rng.map marshalRng) ++ d.Controllers.map marshalController
      ++ oChild (d.Ballooning.map marshalMemBalloon) ++ oChild (d.VSOCK.map marshalVSOCK))

def unmarshalDevices (x : XNode) : Option Devices :=
  (decodeList unmarshalDisk (allNamed "disk" (childrenOf x))).bind fun ds =>
  (decodeList unmarshalInput (allNamed "input" (childrenOf x))).bind fun ins =>
  (decodeList unmarshalVideo (allNamed "video" (childrenOf x))).bind fun vs =>
  (decodeList unmarshalConsole (allNamed "console" (childrenOf x))).bind fun cs =>
  (decodeList unmarshalWatchdog (allNamed "watchdog" (childrenOf x))).bind fun ws =>
  (decodeOpt unmarshalRng (findNamed "rng" (childrenOf x))).bind fun rng =>
  (decodeList unmarshalController (allNamed "controller" (childrenOf x))).bind fun ctl =>
  (decodeOpt unmarshalMemBalloon (findNamed "memballoon" (childrenOf x))).bind fun bal =>
  (decodeOpt unmarshalVSOCK (findNamed "vsock" (childrenOf x))).bind fun vk =>
  some ⟨ds, ins, vs, cs, ws, rng, ctl, bal, vk⟩

def marshalCPUTopology (t : CPUTopology) : XNode :=
  XNode.elem "topology"
    (collectAttrs [("sockets", some (renderNat t.Sockets)), ("cores", some (renderNat t.Cores)),
      ("threads", some (renderNat t.Threads))]) []

def unmarshalCPUTopology (x : XNode) : Option CPUTopology :=
  (getNat "sockets" x).bind fun s =>
  (getNat "cores" x).bind fun c =>
  (getNat "threads" x).bind fun t =>
  some ⟨s, c, t⟩

def marshalCPUFeature (f : CPUFeature) : XNode :=
  XNode.elem "feature" (collectAttrs [("name", strOpt f.Name), ("policy", strOpt f.Policy)]) []

def unmarshalCPUFeature (x : XNode) : Option CPUFeature :=
  some ⟨getStr "name" x, getStr "policy" x⟩

def marshalNUMACell (c : NUMACell) : XNode :=
  XNode.elem "cell"
    (collectAttrs [("id", strOpt c.ID), ("cpus", strOpt c.CPUs),
      ("memory", some (renderNat c.Memory)), ("unit", strOpt c.Unit)]) []

def unmarshalNUMACell (x : XNode) : Option NUMACell :=
  (getNat "memory" x).bind fun m =>
  some ⟨getStr "id" x, getStr "cpus" x, m, getStr "unit" x⟩

def marshalNUMA (n : NUMA) : XNode :=
  XNode.elem "numa" [] (n.Cells.map marshalNUMACell)

def unmarshalNUMA (x : XNode) : Option NUMA :=
  (decodeList unmarshalNUMACell (allNamed "cell" (childrenOf x))).bind fun cells =>
  some ⟨cells⟩

def marshalCPU (c : CPU) : XNode :=
  XNode.elem "cpu" (collectAttrs [("mode", strOpt c.Mode)])
    (optText "model" c.Model ++ c.Features.map marshalCPUFeature
      ++ oChild (c.Topology.map marshalCPUTopology) ++ oChild (c.NUMA.map marshalNUMA))

def unmarshalCPU (x : XNode) : Option CPU :=
  (decodeList unmarshalCPUFeature (allNamed "feature" (childrenOf x))).bind fun fs =>
  (decodeOpt unmarshalCPUTopology (findNamed "topology" (childrenOf x))).bind fun top =>
  (decodeOpt unmarshalNUMA (findNamed "numa" (childrenOf x))).bind fun nm =>
  some ⟨getStr "mode" x, textD (findNamed "model" (childrenOf x)), fs, top, nm⟩

def marshalVCPU (v : VCPU) : XNode :=
  XNode.elem "vcpu" (collectAttrs [("placement", strOpt v.Placement)])
    [XNode.text (renderNat v.CPUs)]

def unmarshalVCPU (x : XNode) : Option VCPU :=
  (parseNat (textOf x)).bind fun n =>
  some ⟨getStr "placement" x, n⟩

def marshalVCPUPin (p : CPUTuneVCPUPin) : XNode :=
  XNode.elem "vcpupin"
    (collectAttrs [("vcpu", some (renderNat p.VCPU)), ("cpuset", strOpt p.CPUSet)]) []

def unmarshalVCPUPin (x : XNode) : Option CPUTuneVCPUPin :=
  (getNat "vcpu" x).bind fun v =>
  some ⟨v, getStr "cpuset" x⟩

def marshalIOThreadPin (p : CPUTuneIOThreadPin) : XNode :=
  XNode.elem "iothreadpin"
    (collectAttrs [("iothread", some (renderNat p.IOThread)), ("cpuset", strOpt p.CPUSet)]) []

def unmarshalIOThreadPin (x : XNode) : Option CPUTuneIOThreadPin :=
  (getNat "iothread" x).bind fun io =>
  some ⟨io, getStr "cpuset" x⟩

def marshalEmulatorPin (p : CPUEmulatorPin) : XNode :=
  XNode.elem "emulatorpin" (collectAttrs [("cpuset", strOpt p.CPUSet)]) []

def unmarshalEmulatorPin (x : XNode) : Option CPUEmulatorPin :=
  some ⟨getStr "cpuset" x⟩

def marshalCPUTune (t : CPUTune) : XNode :=
  XNode.elem "cputune" []
    (t.VCPUPin.map marshalVCPUPin ++ t.IOThreadPin.map marshalIOThreadPin
      ++ oChild (t.EmulatorPin.map marshalEmulatorPin))

def unmarshalCPUTune (x : XNode) : Option CPUTune :=
  (decodeList unmarshalVCPUPin (allNamed "vcpupin" (childrenOf x))).bind fun vp =>
  (decodeList unmarshalIOThreadPin (allNamed "iothreadpin" (childrenOf x))).bind fun ip =>
  (decodeOpt unmarshalEmulatorPin (findNamed "emulatorpin" (childrenOf x))).bind fun ep =>
  some ⟨vp, ip, ep⟩

def marshalNumaTuneMemory (m : NumaTuneMemory) : XNode :=
  XNode.elem "memory" (collectAttrs [("mode", strOpt m.Mode), ("nodeset", strOpt m.NodeSet)]) []

def unmarshalNumaTuneMemory (x : XNode) : Option NumaTuneMemory :=
  some ⟨getStr "mode" x, getStr "nodeset" x⟩

def marshalMemNode (m : MemNode) : XNode :=
  XNode.elem "memnode"
    (collectAttrs [("cellid", some (renderNat m.CellID)), ("mode", strOpt m.Mode),
      ("nodeset", strOpt m.NodeSet)]) []

def unmarshalMemNode (x : XNode) : Option MemNode :=
  (getNat "cellid" x).bind fun cid =>
  some ⟨cid, getStr "mode" x, getStr "nodeset" x⟩

def marshalNUMATune (t : NUMATune) : XNode :=
  XNode.elem "numatune" []
    ([marshalNumaTuneMemory t.Memory] ++ t.MemNodes.map marshalMemNode)

def unmarshalNUMATune (x : XNode) : Option NUMATune :=
  (decodeDefault unmarshalNumaTuneMemory emptyNumaTuneMemory
      (findNamed "memory" (childrenOf x))).bind fun m =>
  (decodeList unmarshalMemNode (allNamed "memnode" (childrenOf x))).bind fun ns =>
  some ⟨m, ns⟩

def marshalIOThreadsElem (t : IOThreads) : XNode :=
  XNode.elem "iothreads" [] [XNode.text (renderNat t.IOThreads)]

def unmarshalIOThreadsElem (x : XNode) : Option IOThreads :=
  (parseNat (textOf x)).map IOThreads.mk

def marshalFeatureStateAs (tag : String) (f : FeatureState) : XNode :=
  XNode.elem tag (collectAttrs [("state", strOpt f.State)]) []

def unmarshalFeatureState (x : XNode) : Option FeatureState :=
  some ⟨getStr "state" x⟩

def marshalFeatureKVM (k : FeatureKVM) : XNode :=
  XNode.elem "kvm" []
    (oChild (k.Hidden.map (marshalFeatureStateAs "hidden"))
      ++ oChild (k.HintDedicated.map (marshalFeatureStateAs "hint-dedicated")))

def unmarshalFeatureKVM (x : XNode) : Option FeatureKVM :=
  (decodeOpt unmarshalFeatureState (findNamed "hidden" (childrenOf x))).bind fun h =>
  (decodeOpt unmarshalFeatureState (findNamed "hint-dedicated" (childrenOf x))).bind fun hd =>
  some ⟨h, hd⟩

def marshalFeatures (f : Features) : XNode :=
  XNode.elem "features" []
    (oChild (f.ACPI.map (fun _ => XNode.elem "acpi" [] []))
      ++ oChild (f.SMM.map (fun _ => XNode.elem "smm" [] []))
      ++ oChild (f.KVM.map marshalFeatureKVM)
      ++ oChild (f.PVSpinlock.map (fun p => XNode.elem "pvspinlock"
          (collectAttrs [("state", strOpt p.State)]) []))
      ++ oChild (f.PMU.map (marshalFeatureStateAs "pmu")))

def unmarshalFeatures (x : XNode) : Option Features :=
  (decodeOpt unmarshalFeatureKVM (findNamed "kvm" (childrenOf x))).bind fun kvm =>
  (decodeOpt unmarshalFeatureState (findNamed "pmu" (childrenOf x))).bind fun pmu =>
  some ⟨(findNamed "acpi" (childrenOf x)).map (fun _ => ⟨⟩),
        (findNamed "smm" (childrenOf x)).map (fun _ => ⟨⟩),
        kvm,
        (findNamed "pvspinlock" (childrenOf x)).map (fun e => ⟨getStr "state" e⟩),
        pmu⟩

def marshalEntry (e : Entry) : XNode :=
  XNode.elem "entry" (collectAttrs [("name", strOpt e.Name)]) [XNode.text e.Value]

def unmarshalEntry (x : XNode) : Option Entry :=
  some ⟨getStr "name" x, textOf x⟩

def marshalSysInfo (s : SysInfo) : XNode :=
  XNode.elem "sysinfo" (collectAttrs [("type", strOpt s.Type_)])
    (if s.System.isEmpty then [] else [XNode.elem "system" [] (s.System.map marshalEntry)])

def unmarshalSysInfo (x : XNode) : Option SysInfo :=
  (match findNamed "system" (childrenOf x) with
    | none => some []
    | some e => decodeList unmarshalEntry (allNamed "entry" (childrenOf e))).bind fun entries =>
  some ⟨getStr "type" x, entries⟩

def marshalGracePeriod (g : GracePeriodMetadata) : XNode :=
  XNode.elem "graceperiod" []
    [XNode.elem "deletionGracePeriodSeconds" []
      [XNode.text (renderNat g.DeletionGracePeriodSeconds)]]

def unmarshalGracePeriod (x : XNode) : Option GracePeriodMetadata :=
  (parseNat (textD (findNamed "deletionGracePeriodSeconds" (childrenOf x)))).map
    GracePeriodMetadata.mk

def marshalKubeVirtMetadata (k : KubeVirtMetadata) : XNode :=
  XNode.elem "kubevirt" []
    (optText "uid" k.UID ++ oChild (k.GracePeriod.map marshalGracePeriod))

def unmarshalKubeVirtMetadata (x : XNode) : Option KubeVirtMetadata :=
  (decodeOpt unmarshalGracePeriod (findNamed "graceperiod" (childrenOf x))).bind fun g =>
  some ⟨textD (findNamed "uid" (childrenOf x)), g⟩

def marshalMetadata (m : Metadata) : XNode :=
  XNode.elem "metadata" [] [marshalKubeVirtMetadata m.KubeVirt]

def unmarshalMetadata (x : XNode) : Option Metadata :=
  (decodeDefault unmarshalKubeVirtMetadata ⟨"", none⟩
      (findNamed "kubevirt" (childrenOf x))).bind fun k =>
  some ⟨k⟩

/-- The child elements of an AMD launch-security payload: one fixed
camelCase tag per field, omitted when the field is empty. -/
def marshalAMDChildren (a : AMDLaunchSecurity) : List XNode :=
  collectTexts [("policy", a.Policy), ("authorKey", a.AuthorKey), ("vcek", a.VCEK),
    ("idAuth", a.IdAuth), ("idBlock", a.IdBlock), ("hostData", a.HostData),
    ("dhCert", a.DHCert), ("session", a.Session), ("cbitpos", a.Cbitpos),
    ("reducedPhysBits", a.ReducedPhysBits)]

/-- Marshal a launch-security value under a given element name (the struct
name standalone, the `launchSecurity` field tag inside a domain):
discriminator as attribute, AMD payload flattened to child elements, nil
payload yielding the bare wrapping element. -/
def marshalLaunchSecurityAs (tag : String) (ls : LaunchSecurity) : XNode :=
  XNode.elem tag (collectAttrs [("type", strOpt ls.Type_)])
    (match ls.AMD with
      | none => []
      | some a => marshalAMDChildren a)

/-- Decode a launch-security element: the payload is reconstructed whenever
any recognized child is present, unseen fields staying at their zero value. -/
def unmarshalLaunchSecurity (x : XNode) : Option LaunchSecurity :=
  let a : AMDLaunchSecurity :=
    ⟨textD (findNamed "policy" (childrenOf x)),
     textD (findNamed "authorKey" (childrenOf x)),
     textD (findNamed "vcek" (childrenOf x)),
     textD (findNamed "idAuth" (childrenOf x)),
     textD (findNamed "idBlock" (childrenOf x)),
     textD (findNamed "hostData" (childrenOf x)),
     textD (findNamed "dhCert" (childrenOf x)),
     textD (findNamed "session" (childrenOf x)),
     textD (findNamed "cbitpos" (childrenOf x)),
     textD (findNamed "reducedPhysBits" (childrenOf x))⟩
  some ⟨getStr "type" x, if a = emptyAMD then none else some a⟩

/-- Marshal a domain spec.  The root element's local name is the recorded
`XMLName` when set, the tag default `domain` otherwise. -/
def marshalDomainSpec (d : DomainSpec) : XNode :=
  XNode.elem (if d.XMLName = "" then "domain" else d.XMLName)
    (collectAttrs [("xmlns", some d.XmlNS), ("type", strOpt d.Type_)])
    ([marshalCPU d.CPU] ++ oChild (d.VCPU.map marshalVCPU)
      ++ oChild (d.CPUTune.map marshalCPUTune) ++ oChild (d.NUMATune.map marshalNUMATune)
      ++ oChild (d.IOThreads.map marshalIOThreadsElem) ++ oChild (d.SysInfo.map marshalSysInfo)
      ++ oChild (d.Features.map marshalFeatures) ++ [marshalMetadata d.Metadata]
      ++ [marshalDevices d.Devices]
      ++ oChild (d.LaunchSecurity.map (marshalLaunchSecurityAs "launchSecurity")))

/-- Decode a domain spec: the root element must be named `domain`, and the
recorded `XMLName` is that name. -/
def unmarshalDomainSpec (x : XNode) : Option DomainSpec :=
  if nodeName x = "domain" then
    (decodeDefault unmarshalCPU emptyCPU (findNamed "cpu" (childrenOf x))).bind fun cpu =>
    (decodeOpt unmarshalVCPU (findNamed "vcpu" (childrenOf x))).bind fun vcpu =>
    (decodeOpt unmarshalCPUTune (findNamed "cputune" (childrenOf x))).bind fun ct =>
    (decodeOpt unmarshalNUMATune (findNamed "numatune" (childrenOf x))).bind fun nt =>
    (decodeOpt unmarshalIOThreadsElem (findNamed "iothreads" (childrenOf x))).bind fun iot =>
    (decodeOpt unmarshalSysInfo (findNamed "sysinfo" (childrenOf x))).bind fun si =>
    (decodeOpt unmarshalFeatures (findNamed "features" (childrenOf x))).bind fun ft =>
    (decodeDefault unmarshalMetadata emptyMetadata
        (findNamed "metadata" (childrenOf x))).bind fun md =>
    (decodeDefault unmarshalDevices emptyDevices
        (findNamed "devices" (childrenOf x))).bind fun dv =>
    (decodeOpt unmarshalLaunchSecurity
        (findNamed "launchSecurity" (childrenOf x))).bind fun lsec =>
    some ⟨"domain", getStr "xmlns" x, getStr "type" x, cpu, vcpu, ct, nt, iot, dv, ft, si,
      md, lsec⟩
  else none

/-! ### Reachability (well-formedness)

The round trip holds for every reachable domain spec: one built by the
constructors and mutated as the controller and the tests do.  Reachable
values never hold a system-managed alias whose bare name itself starts with
`ua-` (names are device names), never attach statistics to a `"none"`
memballoon (the constructors do not, and the codec would suppress them),
never record a root element name other than `domain`, and never hold a
present-but-entirely-empty AMD payload distinct from an absent one on the
wire. -/

def wfAlias (a : Alias) : Bool := a.userDefined || !uaPrefixed a.name

def wfOptAlias : Option Alias → Bool
  | none => true
  | some a => wfAlias a

def wfMemBalloon (b : MemBalloon) : Bool :=
  if b.Model = "none" then b.Stats.isNone else true

def wfDevices (d : Devices) : Bool :=
  d.Disks.all (fun k => wfOptAlias k.Alias)
    && d.Inputs.all (fun i => wfOptAlias i.Alias)
    && d.Watchdogs.all (fun w => wfOptAlias w.Alias)
    && (match d.Ballooning with
        | none => true
        | some b => wfMemBalloon b)

def wfLaunchSecurity (ls : LaunchSecurity) : Bool :=
  match ls.AMD with
  | none => true
  | some a => a ≠ emptyAMD

def wfDomainSpec (d : DomainSpec) : Bool :=
  (d.XMLName == "" || d.XMLName == "domain")
    && wfDevices d.Devices
    && (match d.LaunchSecurity with
        | none => true
        | some ls => wfLaunchSecurity ls)

/-! ### Constructors and the architecture defaulter -/

/-- The empty domain spec. -/
def emptyDomainSpec : DomainSpec :=
  ⟨"", "", "", emptyCPU, none, none, none, none, emptyDevices, none, none, emptyMetadata, none⟩

/-- Modelled from the spec: `NewMinimalDomainSpec` (not in the visible
source) builds a minimal serializable domain from a combined identifier,
with every optional field unset and the fixed namespace declared. -/
def NewMinimalDomainSpec (vmiName : String) : DomainSpec :=
  { emptyDomainSpec with XmlNS := nsConst, Type_ := "kvm" }

/-- Modelled from the spec: `NewMinimalDomainWithNS` builds a minimal domain
from a namespace and a name, kept as non-serialized metadata. -/
def NewMinimalDomainWithNS (ns vmiName : String) : Domain :=
  ⟨ns, vmiName, NewMinimalDomainSpec (ns ++ "_" ++ vmiName)⟩

/-- Modelled from the spec: the architecture-conditional default console
type (the fixture files carrying the concrete per-architecture defaults are
not part of the visible source; the value is representative). -/
def defaultConsoleType (arch : String) : String :=
  if arch = "arm64" then "pty" else "serial"

/-- Modelled from the spec: the architecture-conditional default memballoon
(representative values, see `defaultConsoleType`). -/
def defaultMemBalloon (arch : String) : MemBalloon :=
  if arch = "ppc64le" then ⟨"virtio", none⟩ else ⟨"none", none⟩

/-- Modelled from the spec: the defaulting pass over the serializable spec —
architecture-conditional defaults fill only fields that are unset. -/
def SetObjectDefaults_DomainSpec (arch : String) (s : DomainSpec) : DomainSpec :=
  { s with Devices :=
    { s.Devices with
      Consoles :=
        if s.Devices.Consoles.isEmpty then [⟨defaultConsoleType arch⟩] else s.Devices.Consoles,
      Ballooning :=
        match s.Devices.Ballooning with
        | none => some (defaultMemBalloon arch)
        | some b => some b } }

/-- Modelled from the spec: `NewDefaulter(arch).SetObjectDefaults_Domain` —
fills architecture-specific defaults in place; an unrecognized architecture
token leaves applicable defaults unset (not an error). -/
def SetObjectDefaults_Domain (arch : String) (d : Domain) : Domain :=
  if arch = "amd64" ∨ arch = "arm64" ∨ arch = "ppc64le" then
    { d with Spec := SetObjectDefaults_DomainSpec arch d.Spec }
  else d

/-! ### `pkg/util/amd64.go`

Direct translation of the SEV helpers.  Go pointer fields become `Option`;
each function mirrors the Go control flow statement by statement. -/

/-- `v1.SEVPolicy` (shape as used by `amd64.go`). -/
structure SEVPolicy where
  EncryptedState : Option Bool
deriving DecidableEq, Repr

/-- `v1.SEVAttestation` (opaque payload; only presence matters here). -/
structure SEVAttestation where
deriving DecidableEq, Repr

/-- `v1.SEV` (shape as used by `amd64.go`). -/
structure SEV where
  Policy : Option SEVPolicy
  Attestation : Option SEVAttestation
deriving DecidableEq, Repr

/-- `v1.SEVSNP` (opaque payload; only presence matters here). -/
structure SEVSNP where
deriving DecidableEq, Repr

/-- `v1.LaunchSecurity` (shape as used by `amd64.go`). -/
structure LaunchSecurityV1 where
  SEV : Option SEV
  SNP : Option SEVSNP
deriving DecidableEq, Repr

/-- `v1.DomainSpec` (shape as used by `amd64.go`). -/
structure DomainSpecV1 where
  LaunchSecurity : Option LaunchSecurityV1
deriving DecidableEq, Repr

/-- `v1.VirtualMachineInstanceSpec` (shape as used by `amd64.go`). -/
structure VirtualMachineInstanceSpec where
  Domain : DomainSpecV1
deriving DecidableEq, Repr

/-- `v1.VirtualMachineInstance` (shape as used by `amd64.go`). -/
structure VirtualMachineInstance where
  Spec : VirtualMachineInstanceSpec
deriving DecidableEq, Repr

/-- `IsSEVVMI`: the VMI spec requests AMD SEV. -/
def IsSEVVMI (vmi : VirtualMachineInstance) : Bool :=
  match vmi.Spec.Domain.LaunchSecurity with
  | none => false
  | some ls => ls.SEV.isSome || ls.SNP.isSome

/-- `IsSEVESVMI`: the VMI spec requests AMD SEV-ES. -/
def IsSEVESVMI (vmi : VirtualMachineInstance) : Bool :=
  if !IsSEVVMI vmi then false
  else
    match vmi.Spec.Domain.LaunchSecurity with
    | none => false
    | some ls =>
      match ls.SEV with
      | none => false
      | some sev =>
        match sev.Policy with
        | none => false
        | some policy =>
          match policy.EncryptedState with
          | none => false
          | some b => b

/-- `IsSEVSNPVMI`: the VMI spec requests AMD SEV-SNP. -/
def IsSEVSNPVMI (vmi : VirtualMachineInstance) : Bool :=
  if !IsSEVVMI vmi then false
  else
    match vmi.Spec.Domain.LaunchSecurity with
    | none => false
    | some ls => ls.SNP.isSome

/-- `IsSEVAttestationRequested`: SEV with attestation, not applicable under
SEV-SNP. -/
def IsSEVAttestationRequested (vmi : VirtualMachineInstance) : Bool :=
  if !IsSEVVMI vmi then false
  else if IsSEVSNPVMI vmi then false
  else
    match vmi.Spec.Domain.LaunchSecurity with
    | none => false
    | some ls =>
      match ls.SEV with
      | none => false
      | some sev => sev.Attestation.isSome

/-- Build a VMI directly from an optional launch-security value. -/
def vmiOfLS (ls : Option LaunchSecurityV1) : VirtualMachineInstance := ⟨⟨⟨ls⟩⟩⟩

/-- A SEV payload with policy, encrypted state and attestation all set. -/
def sevFull : SEV := ⟨some ⟨some true⟩, some ⟨⟩⟩

/-- A launch-security value requesting both SEV (with attestation) and SNP. -/
def lsSNPandSEV : LaunchSecurityV1 := ⟨some sevFull, some ⟨⟩⟩

/-! ### The object-graph memory model for `DeepCopy`

Modelled from the spec: `Domain.DeepCopy` (generated deep-copy code, not in
the visible source) copies the whole object graph of a domain — every
pointer- and slice-backed part gets freshly allocated backing memory, so
that mutation through the copy can never affect the original.  The model
makes the aliasing explicit: memory is a heap of objects whose named fields
are scalars, nil pointers, or references to other heap cells; a Go value
such as the example domain is laid out bottom-up, so every reference points
to a strictly lower address (the object graph of these types is acyclic).
`copyObj` recursively copies the reachable subgraph, appending only fresh
cells; `readObj` reads the value tree back; `setObj` is a field mutation. -/

/-- A Go field value in the heap model: an opaque scalar, a nil pointer, or
a pointer/slice reference to another heap cell. -/
inductive GoVal where
  | scalar : String → GoVal
  | nil : GoVal
  | ref : Nat → GoVal
deriving DecidableEq, Repr

/-- A heap object: named fields. -/
structure GoObj where
  fields : List (String × GoVal)
deriving DecidableEq, Repr

/-- The heap: cells addressed by position. -/
abbrev Heap := List GoObj

/-- Dereference an address (the empty object for dangling addresses). -/
def lookupObj (h : Heap) (a : Nat) : GoObj := h.getD a ⟨[]⟩

/-- Mutate the cell at an address. -/
def setObj (h : Heap) (a : Nat) (o : GoObj) : Heap := h.set a o

/-- Copy a field list, using `rec` to copy the cell behind each reference;
the heap is threaded left to right. -/
def copyFieldsWith (rec : Heap → Nat → Heap × Nat) :
    Heap → List (String × GoVal) → Heap × List (String × GoVal)
  | h, [] => (h, [])
  | h, (k, GoVal.ref b) :: rest =>
    let r1 := rec h b
    let r2 := copyFieldsWith rec r1.1 rest
    (r2.1, (k, GoVal.ref r1.2) :: r2.2)
  | h, (k, GoVal.scalar s) :: rest =>
    let r2 := copyFieldsWith rec h rest
    (r2.1, (k, GoVal.scalar s) :: r2.2)
  | h, (k, GoVal.nil) :: rest =>
    let r2 := copyFieldsWith rec h rest
    (r2.1, (k, GoVal.nil) :: r2.2)

/-- Deep-copy the object at an address: copy every referenced cell, then
append the copied object as a fresh cell; its address is returned.  The
fuel bounds the recursion depth; `a + 1` suffices on an ordered heap. -/
def copyObj : Nat → Heap → Nat → Heap × Nat
  | 0, h, a => (h, a)
  | fuel + 1, h, a =>
    let r := copyFieldsWith (copyObj fuel) h (lookupObj h a).fields
    (r.1 ++ [⟨r.2⟩], r.1.length)

/-- `DeepCopy`: copy the object graph rooted at `a`. -/
def DeepCopy (h : Heap) (a : Nat) : Heap × Nat := copyObj (a + 1) h a

/-- The pure value tree stored in the heap, to bounded depth. -/
inductive GoTree where
  | cut : GoTree
  | scalar : String → GoTree
  | nil : GoTree
  | node : List (String × GoTree) → GoTree

/-- Read the value tree rooted at an address, to bounded depth. -/
def readObj : Nat → Heap → Nat → GoTree
  | 0, _, _ => GoTree.cut
  | fuel + 1, h, a =>
    GoTree.node ((lookupObj h a).fields.map (fun p => (p.1,
      match p.2 with
      | GoVal.ref b => readObj fuel h b
      | GoVal.scalar s => GoTree.scalar s
      | GoVal.nil => GoTree.nil)))

/-- Whether a field value's reference (if any) stays below a bound. -/
def refBelowValB : GoVal → Nat → Bool
  | GoVal.ref b, n => b < n
  | _, _ => true

/-- Whether every reference of an object stays below a bound. -/
def refsBelowB (o : GoObj) (n : Nat) : Bool :=
  o.fields.all (fun p => refBelowValB p.2 n)

/-- Whether every reference of an object stays at or above a bound. -/
def refAtLeastValB : GoVal → Nat → Bool
  | GoVal.ref b, n => n ≤ b
  | _, _ => true

/-- Whether every reference of an object stays at or above a bound. -/
def refsAtLeastB (o : GoObj) (n : Nat) : Bool :=
  o.fields.all (fun p => refAtLeastValB p.2 n)

/-- Each object's references point strictly below its own address, starting
the count at `i` (bottom-up layout; this is how an acyclic Go object graph
is laid out). -/
def orderedFromB : Nat → List GoObj → Bool
  | _, [] => true
  | i, o :: t => refsBelowB o i && orderedFromB (i + 1) t

/-- A heap laid out bottom-up: every reference points strictly below the
referencing cell. -/
def orderedHeapB (h : Heap) : Bool := orderedFromB 0 h

/-- A domain object graph with populated device lists, laid out bottom-up:
stats → memballoon, disk cells → devices → domain, mirroring the example
domain of the test suite. -/
def domainHeapEx : Heap :=
  [⟨[("Period", GoVal.scalar "10")]⟩,
   ⟨[("Model", GoVal.scalar "virtio"), ("Stats", GoVal.ref 0)]⟩,
   ⟨[("Type", GoVal.scalar "network"), ("Device", GoVal.scalar "disk"),
     ("Alias", GoVal.scalar "ua-mydisk")]⟩,
   ⟨[("Type", GoVal.scalar "file"), ("Device", GoVal.scalar "disk"),
     ("Alias", GoVal.scalar "ua-mydisk1")]⟩,
   ⟨[("Disk0", GoVal.ref 2), ("Disk1", GoVal.ref 3), ("Ballooning", GoVal.ref 1),
     ("Rng", GoVal.nil)]⟩,
   ⟨[("Devices", GoVal.ref 4), ("UID", GoVal.scalar "f4686d2c")]⟩]

/-! ### Example values from the test suite -/

/-- The example domain of the test suite: a minimal domain populated with
disks, input, video, console, watchdog, rng, controller, features, sysinfo,
CPU topology and metadata exactly as the schema tests construct it. -/
def exampleDomain : Domain :=
  { Namespace := "mynamespace", Name := "testvmi",
    Spec :=
    { NewMinimalDomainSpec "mynamespace_testvmi" with
      CPU :=
      { Mode := "custom", Model := "Conroe",
        Features := [⟨"pcid", "require"⟩, ⟨"monitor", "disable"⟩],
        Topology := some ⟨1, 2, 1⟩, NUMA := none },
      VCPU := some ⟨"static", 2⟩,
      IOThreads := some ⟨2⟩,
      Devices :=
      { emptyDevices with
        Disks :=
        [{ Type_ := "network", Device := "disk", Driver := some ⟨"qemu", "raw"⟩,
           Source := { Protocol := "iscsi", Name := "iqn.2013-07.com.example:iscsi-nopool/2",
                       File := "", Dev := "", Host := some ⟨"example.com", "3260"⟩ },
           Target := ⟨"vda"⟩, Alias := some (NewUserDefinedAlias "mydisk") },
         { Type_ := "file", Device := "disk", Driver := some ⟨"qemu", "raw"⟩,
           Source := { Protocol := "", Name := "",
                       File := "/var/run/libvirt/cloud-init-dir/mynamespace/testvmi/noCloud.iso",
                       Dev := "", Host := none },
           Target := ⟨"vdb"⟩, Alias := some (NewUserDefinedAlias "mydisk1") },
         { Type_ := "block", Device := "disk", Driver := some ⟨"qemu", "raw"⟩,
           Source := { Protocol := "", Name := "", File := "", Dev := "/dev/testdev",
                       Host := none },
           Target := ⟨"vdc"⟩, Alias := some (NewUserDefinedAlias "mydisk2") }],
        Inputs := [⟨"tablet", "virtio", some (NewUserDefinedAlias "tablet0")⟩],
        Video := [⟨⟨"vga", some 1, some 16384⟩⟩],
        Consoles := [⟨"pty"⟩],
        Watchdogs := [⟨"i6300esb", "poweroff", some (NewUserDefinedAlias "mywatchdog")⟩],
        Rng := some ⟨"virtio", some ⟨"random", "/dev/urandom"⟩⟩,
        Controllers := [⟨"raw", "0", "none"⟩],
        Ballooning := some ⟨"virtio", some ⟨10⟩⟩,
        VSOCK := none },
      Features := some ⟨some ⟨⟩, some ⟨⟩, some ⟨some ⟨"on"⟩, some ⟨"on"⟩⟩,
        some ⟨"off"⟩, some ⟨"off"⟩⟩,
      SysInfo := some ⟨"smbios", [⟨"uuid", "e4686d2c-6e8d-4335-b8fd-81bee22f4814"⟩]⟩,
      Metadata := ⟨⟨"f4686d2c-6e8d-4335-b8fd-81bee22f4814", some ⟨5⟩⟩⟩ } }

/-- A `"none"`-model memballoon that still holds an in-memory stats value. -/
def noneBalloonStats : MemBalloon := ⟨"none", some ⟨10⟩⟩

/-- The example domain spec with the `"none"` memballoon carrying stats. -/
def exampleDomainNoneBalloon : DomainSpec :=
  { exampleDomain.Spec with
    Devices := { exampleDomain.Spec.Devices with Ballooning := some noneBalloonStats } }

/-! ### Theorems -/

/-! #### Decimal round trip -/

theorem digitsVal_natDigitsRevFuel (fuel : Nat) :
    ∀ n, n < fuel → digitsVal (natDigitsRevFuel fuel n) = n := by
  induction fuel with
  | zero => intro n h; omega
  | succ fuel ih =>
    intro n h
    unfold natDigitsRevFuel
    by_cases h10 : n < 10
    · simp [h10, digitsVal]
    · have hdiv : n / 10 < fuel := by omega
      simp only [h10, if_false, digitsVal, ih (n / 10) hdiv]
      omega

theorem natDigitsRevFuel_lt_ten (fuel : Nat) :
    ∀ n, ∀ d ∈ natDigitsRevFuel fuel n, d < 10 := by
  induction fuel with
  | zero => intro n d hd; simp [natDigitsRevFuel] at hd
  | succ fuel ih =>
    intro n d hd
    unfold natDigitsRevFuel at hd
    by_cases h10 : n < 10
    · simp [h10] at hd; omega
    · simp only [h10, if_false, List.mem_cons] at hd
      rcases hd with h | h
      · omega
      · exact ih (n / 10) d h

theorem natDigitsRevFuel_ne_nil (fuel n : Nat) (h : n < fuel) :
    natDigitsRevFuel fuel n ≠ [] := by
  cases fuel with
  | zero => omega
  | succ fuel =>
    unfold natDigitsRevFuel
    by_cases h10 : n < 10 <;> simp [h10]

theorem charDigit_digitChar (d : Nat) (h : d < 10) :
    charDigit (digitChar d) = some d := by
  interval_cases d <;> decide

theorem parseDigits_map_digitChar (ds : List Nat) (h : ∀ d ∈ ds, d < 10) :
    parseDigits (ds.map digitChar) = some ds := by
  induction ds with
  | nil => rfl
  | cons d ds ih =>
    have hd : d < 10 := h d (List.mem_cons_self d ds)
    have hds : ∀ x ∈ ds, x < 10 := fun x hx => h x (List.mem_cons_of_mem d hx)
    simp [parseDigits, charDigit_digitChar d hd, ih hds]

theorem parseNat_renderNat (n : Nat) : parseNat (renderNat n) = some n := by
  have hne : natDigitsRev n ≠ [] := natDigitsRevFuel_ne_nil (n + 1) n (Nat.lt_succ_self n)
  have hlt : ∀ d ∈ (natDigitsRev n).reverse, d < 10 := by
    intro d hd
    exact natDigitsRevFuel_lt_ten (n + 1) n d (List.mem_reverse.mp hd)
  have hval : digitsVal (natDigitsRev n) = n :=
    digitsVal_natDigitsRevFuel (n + 1) n (Nat.lt_succ_self n)
  unfold renderNat parseNat
  have hdata : (String.mk ((natDigitsRev n).reverse.map digitChar)).data
      = (natDigitsRev n).reverse.map digitChar := rfl
  rw [hdata]
  have hmapne : ((natDigitsRev n).reverse.map digitChar).isEmpty = false := by
    simp [List.isEmpty_iff, hne]
  rw [hmapne]
  have hp : parseDigits ((natDigitsRev n).reverse.map digitChar) = some ((natDigitsRev n).reverse) :=
    parseDigits_map_digitChar _ hlt
  simp only [Bool.false_eq_true, if_false, hp, Option.map_some', List.reverse_reverse, hval]

/-! #### Generic facts about the XML tree helpers -/

theorem findNamed_append_none {n : String} {xs : List XNode}
    (h : findNamed n xs = none) (ys : List XNode) :
    findNamed n (xs ++ ys) = findNamed n ys := by
  induction xs with
  | nil => rfl
  | cons x t ih =>
    rw [List.cons_append]
    rw [findNamed] at h ⊢
    by_cases hx : nodeName x = n
    · rw [if_pos hx] at h
      exact absurd h (by simp)
    · rw [if_neg hx] at h ⊢
      exact ih h

theorem findNamed_map_none {n m : String} {α : Type} (f : α → XNode)
    (h : ∀ a, nodeName (f a) = m) (hne : m ≠ n) (l : List α) :
    findNamed n (l.map f) = none := by
  induction l with
  | nil => rfl
  | cons a t ih =>
    unfold findNamed
    simp only [List.map_cons]
    rw [h a]
    simp only [hne, if_false]
    exact ih

theorem findNamed_oChild_none {n m : String} {α : Type} (f : α → XNode)
    (h : ∀ a, nodeName (f a) = m) (hne : m ≠ n) (o : Option α) :
    findNamed n (oChild (o.map f)) = none := by
  cases o with
  | none => rfl
  | some a =>
    simp only [Option.map_some', oChild, findNamed]
    rw [h a]
    simp [hne]

theorem allNamed_append (n : String) (xs ys : List XNode) :
    allNamed n (xs ++ ys) = allNamed n xs ++ allNamed n ys := by
  induction xs with
  | nil => rfl
  | cons x t ih =>
    simp only [List.cons_append, allNamed]
    by_cases hx : nodeName x = n
    · simp [hx, ih]
    · simp [hx, ih]

theorem allNamed_map_eq {n : String} {α : Type} (f : α → XNode)
    (h : ∀ a, nodeName (f a) = n) (l : List α) :
    allNamed n (l.map f) = l.map f := by
  induction l with
  | nil => rfl
  | cons a t ih =>
    simp only [List.map_cons, allNamed]
    rw [h a]
    simp [ih]

theorem allNamed_map_ne {n m : String} {α : Type} (f : α → XNode)
    (h : ∀ a, nodeName (f a) = m) (hne : m ≠ n) (l : List α) :
    allNamed n (l.map f) = [] := by
  induction l with
  | nil => rfl
  | cons a t ih =>
    simp only [List.map_cons, allNamed]
    rw [h a]
    simp [hne, ih]

theorem allNamed_oChild_none {n m : String} {α : Type} (f : α → XNode)
    (h : ∀ a, nodeName (f a) = m) (hne : m ≠ n) (o : Option α) :
    allNamed n (oChild (o.map f)) = [] := by
  cases o with
  | none => rfl
  | some a =>
    simp only [Option.map_some', oChild, allNamed]
    rw [h a]
    simp [hne]

theorem decodeList_map {α : Type} (f : XNode → Option α) (m : α → XNode) (l : List α)
    (h : ∀ a ∈ l, f (m a) = some a) : decodeList f (l.map m) = some l := by
  induction l with
  | nil => rfl
  | cons a t ih =>
    have ha : f (m a) = some a := h a (List.mem_cons_self a t)
    have ht : ∀ x ∈ t, f (m x) = some x := fun x hx => h x (List.mem_cons_of_mem a hx)
    simp [decodeList, ha, ih ht]

theorem lookupAttr_collectAttrs_none (k : String) (l : List (String × Option String))
    (h : ∀ p ∈ l, p.1 ≠ k) : lookupAttr k (collectAttrs l) = none := by
  induction l with
  | nil => rfl
  | cons p t ih =>
    obtain ⟨k', o⟩ := p
    have hk' : k' ≠ k := h (k', o) (List.mem_cons_self _ _)
    have ht : ∀ q ∈ t, q.1 ≠ k := fun q hq => h q (List.mem_cons_of_mem _ hq)
    cases o with
    | none => simpa [collectAttrs] using ih ht
    | some v =>
      simp only [collectAttrs, lookupAttr]
      rw [List.find?_cons_of_neg]
      · exact ih ht
      · simp [hk']

theorem lookupAttr_collectAttrs (k : String) (l : List (String × Option String))
    (h : (l.map Prod.fst).Nodup) :
    lookupAttr k (collectAttrs l) = (l.find? (fun p => p.1 == k)).bind Prod.snd := by
  induction l with
  | nil => rfl
  | cons p t ih =>
    obtain ⟨k', o⟩ := p
    simp only [List.map_cons, List.nodup_cons] at h
    obtain ⟨hnotin, hnd⟩ := h
    by_cases hk : k' = k
    · subst hk
      have ht : ∀ q ∈ t, q.1 ≠ k' := by
        intro q hq he
        exact hnotin (he ▸ List.mem_map_of_mem Prod.fst hq)
      cases o with
      | none =>
        simp only [collectAttrs]
        rw [lookupAttr_collectAttrs_none k' t ht]
        rw [List.find?_cons_of_pos _ (by simp)]
        rfl
      | some v =>
        simp only [collectAttrs, lookupAttr]
        rw [List.find?_cons_of_pos _ (by simp), List.find?_cons_of_pos _ (by simp)]
        rfl
    · cases o with
      | none =>
        simp only [collectAttrs]
        rw [ih hnd, List.find?_cons_of_neg _ (by simp [hk])]
      | some v =>
        simp only [collectAttrs, lookupAttr]
        rw [List.find?_cons_of_neg _ (by simp [hk]), List.find?_cons_of_neg _ (by simp [hk])]
        exact ih hnd

theorem findNamed_cons_eq {n : String} {x : XNode} (h : nodeName x = n) (xs : List XNode) :
    findNamed n (x :: xs) = some x := by
  rw [findNamed, if_pos h]

theorem findNamed_cons_ne {n : String} {x : XNode} (h : nodeName x ≠ n) (xs : List XNode) :
    findNamed n (x :: xs) = findNamed n xs := by
  rw [findNamed, if_neg h]

theorem allNamed_cons_ne {n : String} {x : XNode} (h : nodeName x ≠ n) (xs : List XNode) :
    allNamed n (x :: xs) = allNamed n xs := by
  rw [allNamed, if_neg h]

theorem findNamed_oChild_hit {n : String} {α : Type} {f : α → XNode}
    (h : ∀ a, nodeName (f a) = n) {rest : List XNode} (hrest : findNamed n rest = none)
    (o : Option α) :
    findNamed n (oChild (o.map f) ++ rest) = o.map f := by
  cases o with
  | none => simpa [oChild] using hrest
  | some a =>
    simp only [Option.map_some', oChild, List.cons_append]
    exact findNamed_cons_eq (h a) rest

theorem findNamed_singleton_hit {n : String} {x : XNode} (h : nodeName x = n)
    (rest : List XNode) :
    findNamed n ((x :: []) ++ rest) = some x := by
  rw [List.cons_append, List.nil_append]
  exact findNamed_cons_eq h rest

theorem allNamed_map_hit {n : String} {α : Type} {f : α → XNode}
    (h : ∀ a, nodeName (f a) = n) {rest : List XNode} (hrest : allNamed n rest = [])
    (l : List α) :
    allNamed n (l.map f ++ rest) = l.map f := by
  rw [allNamed_append, allNamed_map_eq f h, hrest, List.append_nil]

theorem findNamed_optText_ne {t n : String} (h : t ≠ n) (s : String) (rest : List XNode) :
    findNamed n (optText t s ++ rest) = findNamed n rest := by
  unfold optText
  split
  · rw [List.nil_append]
  · rw [List.cons_append, List.nil_append]
    exact findNamed_cons_ne (by simpa [nodeName] using h) rest

theorem allNamed_optText_ne {t n : String} (h : t ≠ n) (s : String) (rest : List XNode) :
    allNamed n (optText t s ++ rest) = allNamed n rest := by
  unfold optText
  split
  · rw [List.nil_append]
  · rw [List.cons_append, List.nil_append]
    exact allNamed_cons_ne (by simpa [nodeName] using h) rest

theorem textD_findNamed_optText (t s : String) {rest : List XNode}
    (hrest : findNamed t rest = none) :
    textD (findNamed t (optText t s ++ rest)) = s := by
  unfold optText
  split
  · rw [List.nil_append, hrest]
    simp_all [textD]
  · rw [List.cons_append, List.nil_append,
      @findNamed_cons_eq t (XNode.elem t [] [XNode.text s]) rfl rest]
    rfl

theorem findNamed_collectTexts_none {t : String} (l : List (String × String))
    (h : ∀ p ∈ l, p.1 ≠ t) : findNamed t (collectTexts l) = none := by
  induction l with
  | nil => rfl
  | cons p l ih =>
    obtain ⟨tg, s⟩ := p
    have htg : tg ≠ t := h (tg, s) (List.mem_cons_self _ _)
    have hl : ∀ q ∈ l, q.1 ≠ t := fun q hq => h q (List.mem_cons_of_mem _ hq)
    rw [collectTexts, findNamed_optText_ne htg]
    exact ih hl

theorem textD_findNamed_collectTexts (t : String) (l : List (String × String))
    (h : (l.map Prod.fst).Nodup) :
    textD (findNamed t (collectTexts l))
      = ((l.find? (fun p => p.1 == t)).map Prod.snd).getD "" := by
  induction l with
  | nil => rfl
  | cons p l ih =>
    obtain ⟨tg, s⟩ := p
    simp only [List.map_cons, List.nodup_cons] at h
    obtain ⟨hnotin, hnd⟩ := h
    by_cases htg : tg = t
    · subst htg
      have hl : ∀ q ∈ l, q.1 ≠ tg := by
        intro q hq he
        exact hnotin (he ▸ List.mem_map_of_mem Prod.fst hq)
      rw [collectTexts, textD_findNamed_optText tg s (findNamed_collectTexts_none l hl),
        List.find?_cons_of_pos _ (by simp)]
      rfl
    · rw [collectTexts, findNamed_optText_ne htg,
        List.find?_cons_of_neg _ (by simp [htg]), ih hnd]

theorem strOpt_getD (s : String) : (strOpt s).getD "" = s := by
  unfold strOpt
  split
  · simp_all
  · rfl

/-! #### Alias wire format -/

theorem uaPrefixed_marker (n : String) : uaPrefixed (String.mk uaChars ++ n) = true := by
  unfold uaPrefixed
  have hd : (String.mk uaChars ++ n).data = uaChars ++ n.data := String.data_append _ _
  rw [hd]
  have h3 : (3 : Nat) = uaChars.length := rfl
  rw [h3, List.take_left]
  simp

theorem dropUA_marker (n : String) : dropUA (String.mk uaChars ++ n) = n := by
  unfold dropUA
  have hd : (String.mk uaChars ++ n).data = uaChars ++ n.data := String.data_append _ _
  rw [hd]
  have h3 : (3 : Nat) = uaChars.length := rfl
  rw [h3, List.drop_left]

theorem getStr_marshalAliasAs (tag : String) (a : Alias) :
    getStr "name" (marshalAliasAs tag a) = a.wireName := by
  simp [getStr, marshalAliasAs, attrsOf, lookupAttr, List.find?]

/-- C2 (counterexample): the claim fails as stated.  A system-managed alias
whose bare name itself starts with `ua-` marshals to `name="ua-x"`, and
prefix detection on decode reconstructs a user-defined alias named `x`, not
the system-managed `(ua-x, false)` pair that was encoded. -/
theorem alias_xml_roundtrip_counterexample :
    unmarshalAlias (marshalAliasAs "Alias" (newLibvirtManagedAlias "ua-x"))
        = some (NewUserDefinedAlias "x")
    ∧ unmarshalAlias (marshalAliasAs "Alias" (newLibvirtManagedAlias "ua-x"))
        ≠ some (newLibvirtManagedAlias "ua-x") := by
  constructor
  · decide
  · decide

/-- C2 (amended): marshalling `NewUserDefinedAlias n` emits attribute
`name="ua-" ++ n` and a system-managed alias emits `name = n`; decoding
reproduces the `(name, userDefined)` pair that was encoded — for the
user-defined variant for every bare name, and for the system-managed
variant whenever the bare name does not itself start with `ua-`. -/
theorem alias_xml_roundtrip (tag n : String) :
    getStr "name" (marshalAliasAs tag (NewUserDefinedAlias n)) = "ua-" ++ n
    ∧ getStr "name" (marshalAliasAs tag (newLibvirtManagedAlias n)) = n
    ∧ unmarshalAlias (marshalAliasAs tag (NewUserDefinedAlias n))
        = some (NewUserDefinedAlias n)
    ∧ (uaPrefixed n = false →
        unmarshalAlias (marshalAliasAs tag (newLibvirtManagedAlias n))
          = some (newLibvirtManagedAlias n)) := by
  have hua : String.mk uaChars = "ua-" := by decide
  refine ⟨?_, ?_, ?_, ?_⟩
  · rw [getStr_marshalAliasAs]
    simp [Alias.wireName, NewUserDefinedAlias, hua]
  · rw [getStr_marshalAliasAs]
    simp [Alias.wireName, newLibvirtManagedAlias]
  · unfold unmarshalAlias
    rw [getStr_marshalAliasAs]
    simp only [Alias.wireName, NewUserDefinedAlias, if_true]
    rw [uaPrefixed_marker, dropUA_marker]
    simp
  · intro h
    unfold unmarshalAlias
    rw [getStr_marshalAliasAs]
    simp only [Alias.wireName, newLibvirtManagedAlias, Bool.false_eq_true, if_false]
    rw [h]
    simp

/-- C2 (witness): the amended round trip at the bare name `alias0`. -/
theorem alias_xml_roundtrip_witness :
    getStr "name" (marshalAliasAs "Alias" (NewUserDefinedAlias "alias0")) = "ua-" ++ "alias0"
    ∧ getStr "name" (marshalAliasAs "Alias" (newLibvirtManagedAlias "alias0")) = "alias0"
    ∧ unmarshalAlias (marshalAliasAs "Alias" (NewUserDefinedAlias "alias0"))
        = some (NewUserDefinedAlias "alias0")
    ∧ unmarshalAlias (marshalAliasAs "Alias" (newLibvirtManagedAlias "alias0"))
        = some (newLibvirtManagedAlias "alias0") :=
  ⟨(alias_xml_roundtrip "Alias" "alias0").1,
   (alias_xml_roundtrip "Alias" "alias0").2.1,
   (alias_xml_roundtrip "Alias" "alias0").2.2.1,
   (alias_xml_roundtrip "Alias" "alias0").2.2.2 (by decide)⟩

/-- C8: JSON marshalling of an alias writes the private fields under the
exported key names, producing exactly the fixtures of the test suite, and
unmarshalling either serialized form restores both the bare name and the
user-defined flag. -/
theorem alias_json_roundtrip :
    marshalAliasJSON (newLibvirtManagedAlias "alias0")
        = "\x7b\"Name\":\"alias0\",\"UserDefined\":false\x7d"
    ∧ marshalAliasJSON (NewUserDefinedAlias "alias0")
        = "\x7b\"Name\":\"alias0\",\"UserDefined\":true\x7d"
    ∧ unmarshalAliasJSON "\x7b\"Name\":\"alias0\",\"UserDefined\":false\x7d"
        = some (newLibvirtManagedAlias "alias0")
    ∧ unmarshalAliasJSON "\x7b\"Name\":\"alias0\",\"UserDefined\":true\x7d"
        = some (NewUserDefinedAlias "alias0") := by
  refine ⟨by decide, by decide, by decide, by decide⟩

/-! #### `pkg/util/amd64.go` -/

/-- C9: `IsSEVESVMI` holds exactly when the launch security, its SEV field,
the SEV policy and the policy's encrypted-state flag are all present and the
flag is true; and `IsSEVESVMI` implies `IsSEVVMI`. -/
theorem IsSEVESVMI_spec (vmi : VirtualMachineInstance) :
    (IsSEVESVMI vmi = true ↔
      ∃ ls sev policy, vmi.Spec.Domain.LaunchSecurity = some ls
        ∧ ls.SEV = some sev ∧ sev.Policy = some policy
        ∧ policy.EncryptedState = some true)
    ∧ (IsSEVESVMI vmi = true → IsSEVVMI vmi = true) := by
  obtain ⟨⟨⟨ols⟩⟩⟩ := vmi
  cases ols with
  | none => simp [IsSEVESVMI, IsSEVVMI]
  | some ls =>
    obtain ⟨osev, osnp⟩ := ls
    cases osev with
    | none => cases osnp <;> simp [IsSEVESVMI, IsSEVVMI]
    | some sev =>
      obtain ⟨opol, oatt⟩ := sev
      cases opol with
      | none => simp [IsSEVESVMI, IsSEVVMI]
      | some pol =>
        obtain ⟨oes⟩ := pol
        cases oes with
        | none => simp [IsSEVESVMI, IsSEVVMI]
        | some b => cases b <;> simp [IsSEVESVMI, IsSEVVMI]

/-- C10: `IsSEVAttestationRequested` is false whenever SEV-SNP is requested,
even with SEV and its attestation also configured, and it holds exactly when
SEV is configured without SNP and the attestation field is present. -/
theorem IsSEVAttestationRequested_spec (vmi : VirtualMachineInstance) :
    (∀ ls, vmi.Spec.Domain.LaunchSecurity = some ls → ls.SNP.isSome = true →
      IsSEVAttestationRequested vmi = false)
    ∧ (IsSEVAttestationRequested vmi = true ↔
      ∃ ls sev, vmi.Spec.Domain.LaunchSecurity = some ls ∧ ls.SNP = none
        ∧ ls.SEV = some sev ∧ sev.Attestation.isSome = true) := by
  obtain ⟨⟨⟨ols⟩⟩⟩ := vmi
  cases ols with
  | none => simp [IsSEVAttestationRequested, IsSEVVMI, IsSEVSNPVMI]
  | some ls =>
    obtain ⟨osev, osnp⟩ := ls
    cases osev <;> cases osnp <;>
      simp [IsSEVAttestationRequested, IsSEVVMI, IsSEVSNPVMI]

/-- C10 (witness): with SNP requested alongside SEV and attestation,
`IsSEVAttestationRequested` is false. -/
theorem IsSEVAttestationRequested_spec_witness :
    IsSEVAttestationRequested (vmiOfLS (some lsSNPandSEV)) = false :=
  (IsSEVAttestationRequested_spec (vmiOfLS (some lsSNPandSEV))).1
    lsSNPandSEV rfl (by decide)

/-! #### Element names of the marshallers -/

theorem nodeName_marshalStats (s : Stats) : nodeName (marshalStats s) = "stats" := rfl

theorem nodeName_marshalMemBalloon (b : MemBalloon) :
    nodeName (marshalMemBalloon b) = "memballoon" := rfl

theorem nodeName_marshalDiskDriver (d : DiskDriver) :
    nodeName (marshalDiskDriver d) = "driver" := rfl

theorem nodeName_marshalDiskSourceHost (h : DiskSourceHost) :
    nodeName (marshalDiskSourceHost h) = "host" := rfl

theorem nodeName_marshalDiskSource (s : DiskSource) :
    nodeName (marshalDiskSource s) = "source" := rfl

theorem nodeName_marshalDiskTarget (t : DiskTarget) :
    nodeName (marshalDiskTarget t) = "target" := rfl

theorem nodeName_marshalDisk (d : Disk) : nodeName (marshalDisk d) = "disk" := rfl

theorem nodeName_marshalAliasAs (tag : String) (a : Alias) :
    nodeName (marshalAliasAs tag a) = tag := rfl

theorem nodeName_marshalInput (i : Input) : nodeName (marshalInput i) = "input" := rfl

theorem nodeName_marshalVideoModel (m : VideoModel) :
    nodeName (marshalVideoModel m) = "model" := rfl

theorem nodeName_marshalVideo (v : Video) : nodeName (marshalVideo v) = "video" := rfl

theorem nodeName_marshalConsole (c : Console) : nodeName (marshalConsole c) = "console" := rfl

theorem nodeName_marshalWatchdog (w : Watchdog) :
    nodeName (marshalWatchdog w) = "watchdog" := rfl

theorem nodeName_marshalRngBackend (b : RngBackend) :
    nodeName (marshalRngBackend b) = "backend" := rfl

theorem nodeName_marshalRng (r : Rng) : nodeName (marshalRng r) = "rng" := rfl

theorem nodeName_marshalController (c : Controller) :
    nodeName (marshalController c) = "controller" := rfl

theorem nodeName_marshalCID (c : CID) : nodeName (marshalCID c) = "cid" := rfl

theorem nodeName_marshalVSOCK (v : VSOCK) : nodeName (marshalVSOCK v) = "vsock" := rfl

theorem nodeName_marshalDevices (d : Devices) : nodeName (marshalDevices d) = "devices" := rfl

theorem nodeName_marshalCPUTopology (t : CPUTopology) :
    nodeName (marshalCPUTopology t) = "topology" := rfl

theorem nodeName_marshalCPUFeature (f : CPUFeature) :
    nodeName (marshalCPUFeature f) = "feature" := rfl

theorem nodeName_marshalNUMACell (c : NUMACell) : nodeName (marshalNUMACell c) = "cell" := rfl

theorem nodeName_marshalNUMA (n : NUMA) : nodeName (marshalNUMA n) = "numa" := rfl

theorem nodeName_marshalCPU (c : CPU) : nodeName (marshalCPU c) = "cpu" := rfl

theorem nodeName_marshalVCPU (v : VCPU) : nodeName (marshalVCPU v) = "vcpu" := rfl

theorem nodeName_marshalVCPUPin (p : CPUTuneVCPUPin) :
    nodeName (marshalVCPUPin p) = "vcpupin" := rfl

theorem nodeName_marshalIOThreadPin (p : CPUTuneIOThreadPin) :
    nodeName (marshalIOThreadPin p) = "iothreadpin" := rfl

theorem nodeName_marshalEmulatorPin (p : CPUEmulatorPin) :
    nodeName (marshalEmulatorPin p) = "emulatorpin" := rfl

theorem nodeName_marshalCPUTune (t : CPUTune) : nodeName (marshalCPUTune t) = "cputune" := rfl

theorem nodeName_marshalNumaTuneMemory (m : NumaTuneMemory) :
    nodeName (marshalNumaTuneMemory m) = "memory" := rfl

theorem nodeName_marshalMemNode (m : MemNode) : nodeName (marshalMemNode m) = "memnode" := rfl

theorem nodeName_marshalNUMATune (t : NUMATune) :
    nodeName (marshalNUMATune t) = "numatune" := rfl

theorem nodeName_marshalIOThreadsElem (t : IOThreads) :
    nodeName (marshalIOThreadsElem t) = "iothreads" := rfl

theorem nodeName_marshalFeatureStateAs (tag : String) (f : FeatureState) :
    nodeName (marshalFeatureStateAs tag f) = tag := rfl

theorem nodeName_marshalFeatureKVM (k : FeatureKVM) :
    nodeName (marshalFeatureKVM k) = "kvm" := rfl

theorem nodeName_marshalFeatures (f : Features) : nodeName (marshalFeatures f) = "features" := rfl

theorem nodeName_marshalEntry (e : Entry) : nodeName (marshalEntry e) = "entry" := rfl

theorem nodeName_marshalSysInfo (s : SysInfo) : nodeName (marshalSysInfo s) = "sysinfo" := rfl

theorem nodeName_marshalGracePeriod (g : GracePeriodMetadata) :
    nodeName (marshalGracePeriod g) = "graceperiod" := rfl

theorem nodeName_marshalKubeVirtMetadata (k : KubeVirtMetadata) :
    nodeName (marshalKubeVirtMetadata k) = "kubevirt" := rfl

theorem nodeName_marshalMetadata (m : Metadata) : nodeName (marshalMetadata m) = "metadata" := rfl

theorem nodeName_marshalLaunchSecurityAs (tag : String) (ls : LaunchSecurity) :
    nodeName (marshalLaunchSecurityAs tag ls) = tag := rfl

/-! #### Round trips of the leaf elements -/

theorem roundtrip_Stats (s : Stats) : unmarshalStats (marshalStats s) = some s := by
  obtain ⟨p⟩ := s
  simp +decide [unmarshalStats, marshalStats, getNat, attrsOf, lookupAttr_collectAttrs,
    List.find?_cons_of_pos, parseNat_renderNat]

theorem roundtrip_DiskDriver (d : DiskDriver) :
    unmarshalDiskDriver (marshalDiskDriver d) = some d := by
  obtain ⟨n, t⟩ := d
  simp +decide [unmarshalDiskDriver, marshalDiskDriver, getStr, attrsOf,
    lookupAttr_collectAttrs, List.find?_cons_of_pos, List.find?_cons_of_neg, strOpt_getD]

theorem roundtrip_DiskSourceHost (h : DiskSourceHost) :
    unmarshalDiskSourceHost (marshalDiskSourceHost h) = some h := by
  obtain ⟨n, p⟩ := h
  simp +decide [unmarshalDiskSourceHost, marshalDiskSourceHost, getStr, attrsOf,
    lookupAttr_collectAttrs, List.find?_cons_of_pos, List.find?_cons_of_neg, strOpt_getD]

theorem roundtrip_DiskTarget (t : DiskTarget) :
    unmarshalDiskTarget (marshalDiskTarget t) = some t := by
  obtain ⟨d⟩ := t
  simp +decide [unmarshalDiskTarget, marshalDiskTarget, getStr, attrsOf,
    lookupAttr_collectAttrs, List.find?_cons_of_pos, strOpt_getD]

theorem roundtrip_Console (c : Console) :
    unmarshalConsole (marshalConsole c) = some c := by
  obtain ⟨t⟩ := c
  simp +decide [unmarshalConsole, marshalConsole, getStr, attrsOf,
    lookupAttr_collectAttrs, List.find?_cons_of_pos, strOpt_getD]

theorem roundtrip_Controller (c : Controller) :
    unmarshalController (marshalController c) = some c := by
  obtain ⟨t, i, m⟩ := c
  simp +decide [unmarshalController, marshalController, getStr, attrsOf,
    lookupAttr_collectAttrs, List.find?_cons_of_pos, List.find?_cons_of_neg, strOpt_getD]

theorem roundtrip_CPUFeature (f : CPUFeature) :
    unmarshalCPUFeature (marshalCPUFeature f) = some f := by
  obtain ⟨n, p⟩ := f
  simp +decide [unmarshalCPUFeature, marshalCPUFeature, getStr, attrsOf,
    lookupAttr_collectAttrs, List.find?_cons_of_pos, List.find?_cons_of_neg, strOpt_getD]

theorem roundtrip_NumaTuneMemory (m : NumaTuneMemory) :
    unmarshalNumaTuneMemory (marshalNumaTuneMemory m) = some m := by
  obtain ⟨md, ns⟩ := m
  simp +decide [unmarshalNumaTuneMemory, marshalNumaTuneMemory, getStr, attrsOf,
    lookupAttr_collectAttrs, List.find?_cons_of_pos, List.find?_cons_of_neg, strOpt_getD]

theorem roundtrip_EmulatorPin (p : CPUEmulatorPin) :
    unmarshalEmulatorPin (marshalEmulatorPin p) = some p := by
  obtain ⟨cs⟩ := p
  simp +decide [unmarshalEmulatorPin, marshalEmulatorPin, getStr, attrsOf,
    lookupAttr_collectAttrs, List.find?_cons_of_pos, strOpt_getD]

theorem roundtrip_FeatureState (tag : String) (f : FeatureState) :
    unmarshalFeatureState (marshalFeatureStateAs tag f) = some f := by
  obtain ⟨s⟩ := f
  simp +decide [unmarshalFeatureState, marshalFeatureStateAs, getStr, attrsOf,
    lookupAttr_collectAttrs, List.find?_cons_of_pos, strOpt_getD]

theorem roundtrip_CPUTopology (t : CPUTopology) :
    unmarshalCPUTopology (marshalCPUTopology t) = some t := by
  obtain ⟨s, c, th⟩ := t
  simp +decide [unmarshalCPUTopology, marshalCPUTopology, getNat, attrsOf,
    lookupAttr_collectAttrs, List.find?_cons_of_pos, List.find?_cons_of_neg,
    parseNat_renderNat]

theorem roundtrip_NUMACell (c : NUMACell) :
    unmarshalNUMACell (marshalNUMACell c) = some c := by
  obtain ⟨i, cp, m, u⟩ := c
  simp +decide [unmarshalNUMACell, marshalNUMACell, getStr, getNat, attrsOf,
    lookupAttr_collectAttrs, List.find?_cons_of_pos, List.find?_cons_of_neg, strOpt_getD,
    parseNat_renderNat]

theorem roundtrip_MemNode (m : MemNode) :
    unmarshalMemNode (marshalMemNode m) = some m := by
  obtain ⟨c, md, ns⟩ := m
  simp +decide [unmarshalMemNode, marshalMemNode, getStr, getNat, attrsOf,
    lookupAttr_collectAttrs, List.find?_cons_of_pos, List.find?_cons_of_neg, strOpt_getD,
    parseNat_renderNat]

theorem roundtrip_VCPUPin (p : CPUTuneVCPUPin) :
    unmarshalVCPUPin (marshalVCPUPin p) = some p := by
  obtain ⟨v, cs⟩ := p
  simp +decide [unmarshalVCPUPin, marshalVCPUPin, getStr, getNat, attrsOf,
    lookupAttr_collectAttrs, List.find?_cons_of_pos, List.find?_cons_of_neg, strOpt_getD,
    parseNat_renderNat]

theorem roundtrip_IOThreadPin (p : CPUTuneIOThreadPin) :
    unmarshalIOThreadPin (marshalIOThreadPin p) = some p := by
  obtain ⟨io, cs⟩ := p
  simp +decide [unmarshalIOThreadPin, marshalIOThreadPin, getStr, getNat, attrsOf,
    lookupAttr_collectAttrs, List.find?_cons_of_pos, List.find?_cons_of_neg, strOpt_getD,
    parseNat_renderNat]

theorem roundtrip_CID (c : CID) : unmarshalCID (marshalCID c) = some c := by
  obtain ⟨a, ad⟩ := c
  simp +decide [unmarshalCID, marshalCID, getStr, getNat, attrsOf,
    lookupAttr_collectAttrs, List.find?_cons_of_pos, List.find?_cons_of_neg, strOpt_getD,
    parseNat_renderNat]

theorem roundtrip_VideoModel (m : VideoModel) :
    unmarshalVideoModel (marshalVideoModel m) = some m := by
  obtain ⟨t, h, v⟩ := m
  cases h <;> cases v <;>
    simp +decide [unmarshalVideoModel, marshalVideoModel, getStr, getONat, attrsOf,
      lookupAttr_collectAttrs, List.find?_cons_of_pos, List.find?_cons_of_neg, strOpt_getD,
      parseNat_renderNat]

theorem roundtrip_RngBackend (b : RngBackend) :
    unmarshalRngBackend (marshalRngBackend b) = some b := by
  obtain ⟨m, s⟩ := b
  simp +decide [unmarshalRngBackend, marshalRngBackend, getStr, textOf, attrsOf, childrenOf,
    lookupAttr_collectAttrs, List.find?_cons_of_pos, strOpt_getD]

theorem roundtrip_Entry (e : Entry) : unmarshalEntry (marshalEntry e) = some e := by
  obtain ⟨n, v⟩ := e
  simp +decide [unmarshalEntry, marshalEntry, getStr, textOf, attrsOf, childrenOf,
    lookupAttr_collectAttrs, List.find?_cons_of_pos, strOpt_getD]

theorem roundtrip_VCPU (v : VCPU) : unmarshalVCPU (marshalVCPU v) = some v := by
  obtain ⟨p, c⟩ := v
  simp +decide [unmarshalVCPU, marshalVCPU, getStr, textOf, attrsOf, childrenOf,
    lookupAttr_collectAttrs, List.find?_cons_of_pos, strOpt_getD, parseNat_renderNat]

theorem roundtrip_IOThreadsElem (t : IOThreads) :
    unmarshalIOThreadsElem (marshalIOThreadsElem t) = some t := by
  obtain ⟨n⟩ := t
  simp +decide [unmarshalIOThreadsElem, marshalIOThreadsElem, textOf, childrenOf,
    parseNat_renderNat]

theorem roundtrip_GracePeriod (g : GracePeriodMetadata) :
    unmarshalGracePeriod (marshalGracePeriod g) = some g := by
  obtain ⟨s⟩ := g
  simp +decide [unmarshalGracePeriod, marshalGracePeriod, textD, textOf, childrenOf,
    findNamed, nodeName, parseNat_renderNat]

theorem roundtrip_Alias (tag : String) (a : Alias) (h : wfAlias a = true) :
    unmarshalAlias (marshalAliasAs tag a) = some a := by
  obtain ⟨n, u⟩ := a
  unfold unmarshalAlias
  rw [getStr_marshalAliasAs]
  cases u with
  | true =>
    simp only [Alias.wireName, if_true]
    rw [uaPrefixed_marker, dropUA_marker]
    simp
  | false =>
    have hn : uaPrefixed n = false := by
      simpa [wfAlias] using h
    simp only [Alias.wireName, Bool.false_eq_true, if_false]
    rw [hn]
    simp

theorem findNamed_append_match (n : String) (xs ys : List XNode) :
    findNamed n (xs ++ ys) =
      match findNamed n xs with
      | some x => some x
      | none => findNamed n ys := by
  induction xs with
  | nil => rfl
  | cons x t ih =>
    rw [List.cons_append, findNamed, findNamed]
    by_cases hx : nodeName x = n
    · rw [if_pos hx, if_pos hx]
    · rw [if_neg hx, if_neg hx, ih]

theorem findNamed_map_none' {n : String} {α : Type} {f : α → XNode}
    (h : ∀ a, (nodeName (f a) == n) = false) (l : List α) :
    findNamed n (l.map f) = none := by
  induction l with
  | nil => rfl
  | cons a t ih =>
    rw [List.map_cons, findNamed, if_neg (by simpa using h a), ih]

theorem allNamed_map_ne' {n : String} {α : Type} {f : α → XNode}
    (h : ∀ a, (nodeName (f a) == n) = false) (l : List α) :
    allNamed n (l.map f) = [] := by
  induction l with
  | nil => rfl
  | cons a t ih =>
    rw [List.map_cons, allNamed, if_neg (by simpa using h a), ih]

theorem roundtrip_CPUTune (t : CPUTune) : unmarshalCPUTune (marshalCPUTune t) = some t := by
  obtain ⟨vp, ip, ep⟩ := t
  cases ep <;>
    simp +decide [unmarshalCPUTune, marshalCPUTune, childrenOf, oChild, decodeOpt,
      List.append_assoc, findNamed_append_match, allNamed_append, findNamed, allNamed,
      findNamed_map_none', allNamed_map_ne', allNamed_map_eq,
      nodeName_marshalVCPUPin, nodeName_marshalIOThreadPin, nodeName_marshalEmulatorPin,
      decodeList_map unmarshalVCPUPin marshalVCPUPin vp (fun p _ => roundtrip_VCPUPin p),
      decodeList_map unmarshalIOThreadPin marshalIOThreadPin ip
        (fun p _ => roundtrip_IOThreadPin p),
      roundtrip_EmulatorPin]

theorem findNamed_oChild_none' {n : String} {α : Type} {f : α → XNode}
    (h : ∀ a, (nodeName (f a) == n) = false) (o : Option α) :
    findNamed n (oChild (o.map f)) = none := by
  cases o with
  | none => rfl
  | some a =>
    simp only [Option.map_some', oChild, findNamed]
    rw [if_neg (by simpa using h a)]

theorem decodeOpt_map_inst {α : Type} {f : XNode → Option α} {m : α → XNode} {o : Option α}
    (h : ∀ a, o = some a → f (m a) = some a) : decodeOpt f (o.map m) = some o := by
  cases o with
  | none => rfl
  | some a => simp [decodeOpt, h a rfl]

theorem roundtrip_MemBalloon (b : MemBalloon) (h : wfMemBalloon b = true) :
    unmarshalMemBalloon (marshalMemBalloon b) = some b := by
  obtain ⟨m, st⟩ := b
  by_cases hm : m = "none"
  · subst hm
    have hst : st = none := by
      simpa [wfMemBalloon, Option.isNone_iff_eq_none] using h
    subst hst
    simp +decide [unmarshalMemBalloon, marshalMemBalloon, getStr, attrsOf, childrenOf,
      lookupAttr_collectAttrs, List.find?_cons_of_pos, strOpt_getD, findNamed, decodeOpt]
  · cases st with
    | none =>
      simp +decide [unmarshalMemBalloon, marshalMemBalloon, hm, getStr, attrsOf, childrenOf,
        lookupAttr_collectAttrs, List.find?_cons_of_pos, strOpt_getD, findNamed, decodeOpt,
        oChild]
    | some s =>
      simp +decide [unmarshalMemBalloon, marshalMemBalloon, hm, getStr, attrsOf, childrenOf,
        lookupAttr_collectAttrs, List.find?_cons_of_pos, strOpt_getD, findNamed, decodeOpt,
        oChild, nodeName_marshalStats, roundtrip_Stats]

theorem roundtrip_DiskSource (s : DiskSource) :
    unmarshalDiskSource (marshalDiskSource s) = some s := by
  obtain ⟨p, n, f, dv, h⟩ := s
  cases h <;>
    simp +decide [unmarshalDiskSource, marshalDiskSource, getStr, attrsOf, childrenOf,
      lookupAttr_collectAttrs, List.find?_cons_of_pos, List.find?_cons_of_neg, strOpt_getD,
      findNamed, decodeOpt, oChild, nodeName_marshalDiskSourceHost, roundtrip_DiskSourceHost]

theorem roundtrip_Disk (d : Disk) (h : wfOptAlias d.Alias = true) :
    unmarshalDisk (marshalDisk d) = some d := by
  obtain ⟨t, dev, dr, src, tg, al⟩ := d
  have hsrc := roundtrip_DiskSource src
  have htgt := roundtrip_DiskTarget tg
  cases al with
  | none =>
    cases dr <;>
      simp +decide [unmarshalDisk, marshalDisk, getStr, attrsOf, childrenOf,
        lookupAttr_collectAttrs, List.find?_cons_of_pos, List.find?_cons_of_neg, strOpt_getD,
        findNamed, decodeOpt, decodeDefault, oChild, List.append_assoc, List.cons_append,
        findNamed_append_match, nodeName_marshalDiskDriver, nodeName_marshalDiskSource,
        nodeName_marshalDiskTarget, nodeName_marshalAliasAs, roundtrip_DiskDriver, hsrc, htgt]
  | some a =>
    have ha : unmarshalAlias (marshalAliasAs "alias" a) = some a :=
      roundtrip_Alias "alias" a (by simpa [wfOptAlias] using h)
    cases dr <;>
      simp +decide [unmarshalDisk, marshalDisk, getStr, attrsOf, childrenOf,
        lookupAttr_collectAttrs, List.find?_cons_of_pos, List.find?_cons_of_neg, strOpt_getD,
        findNamed, decodeOpt, decodeDefault, oChild, List.append_assoc, List.cons_append,
        findNamed_append_match, nodeName_marshalDiskDriver, nodeName_marshalDiskSource,
        nodeName_marshalDiskTarget, nodeName_marshalAliasAs, roundtrip_DiskDriver, hsrc, htgt,
        ha]

theorem roundtrip_Input (i : Input) (h : wfOptAlias i.Alias = true) :
    unmarshalInput (marshalInput i) = some i := by
  obtain ⟨t, b, al⟩ := i
  cases al with
  | none =>
    simp +decide [unmarshalInput, marshalInput, getStr, attrsOf, childrenOf,
      lookupAttr_collectAttrs, List.find?_cons_of_pos, List.find?_cons_of_neg, strOpt_getD,
      findNamed, decodeOpt, oChild]
  | some a =>
    have ha : unmarshalAlias (marshalAliasAs "alias" a) = some a :=
      roundtrip_Alias "alias" a (by simpa [wfOptAlias] using h)
    simp +decide [unmarshalInput, marshalInput, getStr, attrsOf, childrenOf,
      lookupAttr_collectAttrs, List.find?_cons_of_pos, List.find?_cons_of_neg, strOpt_getD,
      findNamed, decodeOpt, oChild, nodeName_marshalAliasAs, ha]

theorem roundtrip_Watchdog (w : Watchdog) (h : wfOptAlias w.Alias = true) :
    unmarshalWatchdog (marshalWatchdog w) = some w := by
  obtain ⟨m, ac, al⟩ := w
  cases al with
  | none =>
    simp +decide [unmarshalWatchdog, marshalWatchdog, getStr, attrsOf, childrenOf,
      lookupAttr_collectAttrs, List.find?_cons_of_pos, List.find?_cons_of_neg, strOpt_getD,
      findNamed, decodeOpt, oChild]
  | some a =>
    have ha : unmarshalAlias (marshalAliasAs "alias" a) = some a :=
      roundtrip_Alias "alias" a (by simpa [wfOptAlias] using h)
    simp +decide [unmarshalWatchdog, marshalWatchdog, getStr, attrsOf, childrenOf,
      lookupAttr_collectAttrs, List.find?_cons_of_pos, List.find?_cons_of_neg, strOpt_getD,
      findNamed, decodeOpt, oChild, nodeName_marshalAliasAs, ha]

theorem roundtrip_Video (v : Video) : unmarshalVideo (marshalVideo v) = some v := by
  obtain ⟨m⟩ := v
  simp +decide [unmarshalVideo, marshalVideo, childrenOf, findNamed, decodeDefault,
    nodeName_marshalVideoModel, roundtrip_VideoModel]

theorem roundtrip_Rng (r : Rng) : unmarshalRng (marshalRng r) = some r := by
  obtain ⟨m, b⟩ := r
  cases b <;>
    simp +decide [unmarshalRng, marshalRng, getStr, attrsOf, childrenOf,
      lookupAttr_collectAttrs, List.find?_cons_of_pos, strOpt_getD, findNamed, decodeOpt,
      oChild, nodeName_marshalRngBackend, roundtrip_RngBackend]

theorem roundtrip_VSOCK (v : VSOCK) : unmarshalVSOCK (marshalVSOCK v) = some v := by
  obtain ⟨m, c⟩ := v
  simp +decide [unmarshalVSOCK, marshalVSOCK, getStr, attrsOf, childrenOf,
    lookupAttr_collectAttrs, List.find?_cons_of_pos, strOpt_getD, findNamed, decodeDefault,
    nodeName_marshalCID, roundtrip_CID]

theorem roundtrip_NUMA (n : NUMA) : unmarshalNUMA (marshalNUMA n) = some n := by
  obtain ⟨cells⟩ := n
  simp +decide [unmarshalNUMA, marshalNUMA, childrenOf,
    allNamed_map_eq marshalNUMACell nodeName_marshalNUMACell,
    decodeList_map unmarshalNUMACell marshalNUMACell cells (fun c _ => roundtrip_NUMACell c)]

theorem roundtrip_NUMATune (t : NUMATune) : unmarshalNUMATune (marshalNUMATune t) = some t := by
  obtain ⟨m, ns⟩ := t
  simp +decide [unmarshalNUMATune, marshalNUMATune, childrenOf, List.cons_append,
    List.nil_append, findNamed, allNamed, decodeDefault,
    nodeName_marshalNumaTuneMemory, nodeName_marshalMemNode, roundtrip_NumaTuneMemory,
    allNamed_map_eq marshalMemNode nodeName_marshalMemNode,
    decodeList_map unmarshalMemNode marshalMemNode ns (fun x _ => roundtrip_MemNode x)]

theorem allNamed_oChild_none' {n : String} {α : Type} {f : α → XNode}
    (h : ∀ a, (nodeName (f a) == n) = false) (o : Option α) :
    allNamed n (oChild (o.map f)) = [] := by
  cases o with
  | none => rfl
  | some a =>
    simp only [Option.map_some', oChild, allNamed]
    rw [if_neg (by simpa using h a)]

theorem findNamed_map_skip {n : String} {α : Type} {f : α → XNode}
    (h : ∀ a, (nodeName (f a) == n) = false) (l : List α) (rest : List XNode) :
    findNamed n (l.map f ++ rest) = findNamed n rest :=
  findNamed_append_none (findNamed_map_none' h l) rest

theorem allNamed_map_skip {n : String} {α : Type} {f : α → XNode}
    (h : ∀ a, (nodeName (f a) == n) = false) (l : List α) (rest : List XNode) :
    allNamed n (l.map f ++ rest) = allNamed n rest := by
  rw [allNamed_append, allNamed_map_ne' h, List.nil_append]

theorem findNamed_oChild_skip {n : String} {α : Type} {f : α → XNode}
    (h : ∀ a, (nodeName (f a) == n) = false) (o : Option α) (rest : List XNode) :
    findNamed n (oChild (o.map f) ++ rest) = findNamed n rest :=
  findNamed_append_none (findNamed_oChild_none' h o) rest

theorem allNamed_oChild_skip {n : String} {α : Type} {f : α → XNode}
    (h : ∀ a, (nodeName (f a) == n) = false) (o : Option α) (rest : List XNode) :
    allNamed n (oChild (o.map f) ++ rest) = allNamed n rest := by
  rw [allNamed_append, allNamed_oChild_none' h o, List.nil_append]

theorem findNamed_oChild_self {n : String} {α : Type} {f : α → XNode}
    (h : ∀ a, nodeName (f a) = n) (o : Option α) :
    findNamed n (oChild (o.map f)) = o.map f := by
  cases o with
  | none => rfl
  | some a =>
    simp only [Option.map_some', oChild, findNamed]
    rw [if_pos (h a)]

theorem findNamed_optText_ne0 {t n : String} (h : t ≠ n) (s : String) :
    findNamed n (optText t s) = none := by
  unfold optText
  split
  · rfl
  · rw [findNamed, if_neg (by simpa [nodeName] using h)]
    rfl

theorem allNamed_optText_ne0 {t n : String} (h : t ≠ n) (s : String) :
    allNamed n (optText t s) = [] := by
  unfold optText
  split
  · rfl
  · rw [allNamed, if_neg (by simpa [nodeName] using h)]
    rfl

theorem textD_findNamed_optText0 (t s : String) :
    textD (findNamed t (optText t s)) = s := by
  unfold optText
  split
  · simp_all [findNamed, textD]
  · rw [findNamed, if_pos (show nodeName (XNode.elem t [] [XNode.text s]) = t from rfl)]
    rfl

theorem nodeName_elem (n : String) (a : List (String × String)) (c : List XNode) :
    nodeName (XNode.elem n a c) = n := rfl

theorem oChild_none_eq : oChild none = [] := rfl

theorem oChild_some_eq (x : XNode) : oChild (some x) = [x] := rfl

theorem roundtrip_CPU (c : CPU) : unmarshalCPU (marshalCPU c) = some c := by
  obtain ⟨mo, ml, fs, tp, nm⟩ := c
  have hTop : decodeOpt unmarshalCPUTopology (tp.map marshalCPUTopology) = some tp :=
    decodeOpt_map_inst (fun a _ => roundtrip_CPUTopology a)
  have hNuma : decodeOpt unmarshalNUMA (nm.map marshalNUMA) = some nm :=
    decodeOpt_map_inst (fun a _ => roundtrip_NUMA a)
  simp +decide [unmarshalCPU, marshalCPU, getStr, attrsOf, childrenOf,
    lookupAttr_collectAttrs, List.find?_cons_of_pos, strOpt_getD, List.append_assoc,
    allNamed_optText_ne, textD_findNamed_optText, findNamed_optText_ne,
    findNamed_map_skip, allNamed_map_hit, allNamed_oChild_none', allNamed_oChild_skip,
    findNamed_oChild_skip, findNamed_oChild_self, findNamed_oChild_none',
    findNamed_oChild_hit,
    nodeName_marshalCPUFeature, nodeName_marshalCPUTopology, nodeName_marshalNUMA,
    hTop, hNuma,
    decodeList_map unmarshalCPUFeature marshalCPUFeature fs (fun x _ => roundtrip_CPUFeature x)]

theorem roundtrip_FeatureKVM (k : FeatureKVM) :
    unmarshalFeatureKVM (marshalFeatureKVM k) = some k := by
  obtain ⟨hi, hd⟩ := k
  have h1 : decodeOpt unmarshalFeatureState (hi.map (marshalFeatureStateAs "hidden"))
      = some hi := decodeOpt_map_inst (fun a _ => roundtrip_FeatureState "hidden" a)
  have h2 : decodeOpt unmarshalFeatureState (hd.map (marshalFeatureStateAs "hint-dedicated"))
      = some hd := decodeOpt_map_inst (fun a _ => roundtrip_FeatureState "hint-dedicated" a)
  simp +decide [unmarshalFeatureKVM, marshalFeatureKVM, childrenOf, List.append_assoc,
    findNamed_oChild_hit, findNamed_oChild_none', findNamed_oChild_skip,
    findNamed_oChild_self, nodeName_marshalFeatureStateAs, h1, h2]

theorem map_const_FE {α : Type} (o : Option FeatureEnabled) (f : FeatureEnabled → α)
    (g : α → XNode) :
    ((o.map f).map g).map (fun _ => (⟨⟩ : FeatureEnabled)) = o := by
  cases o <;> rfl

theorem map_pvspinlock (pv : Option FeaturePVSpinlock) :
    Option.map (fun e => (⟨getStr "state" e⟩ : FeaturePVSpinlock))
      (pv.map (fun p => XNode.elem "pvspinlock" (collectAttrs [("state", strOpt p.State)]) []))
      = pv := by
  cases pv with
  | none => rfl
  | some p =>
    simp +decide [getStr, attrsOf, lookupAttr_collectAttrs, List.find?_cons_of_pos,
      strOpt_getD]

theorem map_unit_FE (o : Option FeatureEnabled) (f : FeatureEnabled → XNode) :
    (o.map f).map (fun _ => (⟨⟩ : FeatureEnabled)) = o := by
  cases o <;> rfl

theorem option_map_unitFE (o : Option FeatureEnabled) :
    o.map (fun _ => (⟨⟩ : FeatureEnabled)) = o := by
  cases o <;> rfl

theorem roundtrip_Features (f : Features) : unmarshalFeatures (marshalFeatures f) = some f := by
  obtain ⟨ac, sm, kv, pv, pm⟩ := f
  have hkvm : decodeOpt unmarshalFeatureKVM (kv.map marshalFeatureKVM) = some kv :=
    decodeOpt_map_inst (fun a _ => roundtrip_FeatureKVM a)
  have hpmu : decodeOpt unmarshalFeatureState (pm.map (marshalFeatureStateAs "pmu"))
      = some pm := decodeOpt_map_inst (fun a _ => roundtrip_FeatureState "pmu" a)
  cases ac <;> cases sm <;> cases pv <;>
    simp +decide [unmarshalFeatures, marshalFeatures, getStr, attrsOf, childrenOf,
      lookupAttr_collectAttrs, List.find?_cons_of_pos, strOpt_getD, List.append_assoc,
      oChild_none_eq, oChild_some_eq, findNamed, nodeName_elem, findNamed_oChild_hit,
      findNamed_oChild_none', findNamed_oChild_skip, findNamed_oChild_self,
      nodeName_marshalFeatureKVM, nodeName_marshalFeatureStateAs,
      hkvm, hpmu, map_unit_FE, map_pvspinlock, option_map_unitFE]

theorem roundtrip_SysInfo (s : SysInfo) : unmarshalSysInfo (marshalSysInfo s) = some s := by
  obtain ⟨t, sys⟩ := s
  by_cases hs : sys.isEmpty
  · have hnil : sys = [] := by simpa [List.isEmpty_iff] using hs
    subst hnil
    simp +decide [unmarshalSysInfo, marshalSysInfo, getStr, attrsOf, childrenOf,
      lookupAttr_collectAttrs, List.find?_cons_of_pos, strOpt_getD, findNamed]
  · simp +decide [unmarshalSysInfo, marshalSysInfo, hs, getStr, attrsOf, childrenOf,
      lookupAttr_collectAttrs, List.find?_cons_of_pos, strOpt_getD, findNamed, nodeName,
      allNamed_map_eq marshalEntry nodeName_marshalEntry,
      decodeList_map unmarshalEntry marshalEntry sys (fun x _ => roundtrip_Entry x)]

theorem roundtrip_KubeVirtMetadata (k : KubeVirtMetadata) :
    unmarshalKubeVirtMetadata (marshalKubeVirtMetadata k) = some k := by
  obtain ⟨u, g⟩ := k
  cases g <;>
    simp +decide [unmarshalKubeVirtMetadata, marshalKubeVirtMetadata, childrenOf, oChild,
      decodeOpt, findNamed, findNamed_optText_ne, findNamed_optText_ne0,
      textD_findNamed_optText, textD_findNamed_optText0,
      nodeName_marshalGracePeriod, roundtrip_GracePeriod]

theorem roundtrip_Metadata (m : Metadata) : unmarshalMetadata (marshalMetadata m) = some m := by
  obtain ⟨k⟩ := m
  simp +decide [unmarshalMetadata, marshalMetadata, childrenOf, findNamed, decodeDefault,
    nodeName_marshalKubeVirtMetadata, roundtrip_KubeVirtMetadata]

theorem roundtrip_LaunchSecurity (tag : String) (ls : LaunchSecurity)
    (h : wfLaunchSecurity ls = true) :
    unmarshalLaunchSecurity (marshalLaunchSecurityAs tag ls) = some ls := by
  obtain ⟨t, amd⟩ := ls
  cases amd with
  | none =>
    simp +decide [unmarshalLaunchSecurity, marshalLaunchSecurityAs, getStr, attrsOf,
      childrenOf, lookupAttr_collectAttrs, List.find?_cons_of_pos, strOpt_getD, textD,
      findNamed, emptyAMD]
  | some a =>
    have ha : a ≠ emptyAMD := by simpa [wfLaunchSecurity] using h
    obtain ⟨p, ak, vc, ia, ib, hd, dh, se, cb, rb⟩ := a
    simp +decide [unmarshalLaunchSecurity, marshalLaunchSecurityAs, marshalAMDChildren,
      getStr, attrsOf, childrenOf, lookupAttr_collectAttrs, List.find?_cons_of_pos,
      strOpt_getD, textD_findNamed_collectTexts, List.find?_cons_of_neg, ha]

theorem roundtrip_Devices (d : Devices) (h : wfDevices d = true) :
    unmarshalDevices (marshalDevices d) = some d := by
  obtain ⟨ds, ins, vs, cs, ws, rng, ctl, bal, vk⟩ := d
  simp only [wfDevices, Bool.and_eq_true] at h
  obtain ⟨⟨⟨hds, hins⟩, hws⟩, hbal⟩ := h
  have hDisks : ∀ k ∈ ds, unmarshalDisk (marshalDisk k) = some k :=
    fun k hk => roundtrip_Disk k (List.all_eq_true.mp hds k hk)
  have hIns : ∀ k ∈ ins, unmarshalInput (marshalInput k) = some k :=
    fun k hk => roundtrip_Input k (List.all_eq_true.mp hins k hk)
  have hWs : ∀ k ∈ ws, unmarshalWatchdog (marshalWatchdog k) = some k :=
    fun k hk => roundtrip_Watchdog k (List.all_eq_true.mp hws k hk)
  have hRng : decodeOpt unmarshalRng (rng.map marshalRng) = some rng :=
    decodeOpt_map_inst (fun a _ => roundtrip_Rng a)
  have hVk : decodeOpt unmarshalVSOCK (vk.map marshalVSOCK) = some vk :=
    decodeOpt_map_inst (fun a _ => roundtrip_VSOCK a)
  have hBal : decodeOpt unmarshalMemBalloon (bal.map marshalMemBalloon) = some bal := by
    apply decodeOpt_map_inst
    intro b hb
    apply roundtrip_MemBalloon
    rw [hb] at hbal
    exact hbal
  simp +decide [unmarshalDevices, marshalDevices, childrenOf, List.append_assoc,
    allNamed_map_hit, allNamed_map_skip, allNamed_oChild_skip, allNamed_oChild_none',
    findNamed_map_skip, findNamed_oChild_skip, findNamed_oChild_hit,
    findNamed_oChild_none', findNamed_oChild_self,
    nodeName_marshalDisk, nodeName_marshalInput, nodeName_marshalVideo,
    nodeName_marshalConsole, nodeName_marshalWatchdog, nodeName_marshalRng,
    nodeName_marshalController, nodeName_marshalMemBalloon, nodeName_marshalVSOCK,
    hRng, hVk, hBal,
    decodeList_map unmarshalDisk marshalDisk ds hDisks,
    decodeList_map unmarshalInput marshalInput ins hIns,
    decodeList_map unmarshalVideo marshalVideo vs (fun x _ => roundtrip_Video x),
    decodeList_map unmarshalConsole marshalConsole cs (fun x _ => roundtrip_Console x),
    decodeList_map unmarshalWatchdog marshalWatchdog ws hWs,
    decodeList_map unmarshalController marshalController ctl
      (fun x _ => roundtrip_Controller x)]

/-- The central round trip: decoding the encoding of any reachable domain
spec recovers it exactly, with the root element's local name normalized to
`domain`. -/
theorem roundtrip_DomainSpec (d : DomainSpec) (h : wfDomainSpec d = true) :
    unmarshalDomainSpec (marshalDomainSpec d) = some { d with XMLName := "domain" } := by
  obtain ⟨xn, xns, ty, cpu, vcpu, ct, nt, iot, dvs, fts, si, md, lsec⟩ := d
  simp only [wfDomainSpec, Bool.and_eq_true] at h
  obtain ⟨⟨hxn, hdvs⟩, hls⟩ := h
  have hroot : (if xn = "" then "domain" else xn) = "domain" := by
    rcases Bool.or_eq_true _ _ |>.mp hxn with h1 | h1
    · rw [if_pos (by simpa using h1)]
    · have : xn = "domain" := by simpa using h1
      subst this
      split <;> rfl
  have hCPU := roundtrip_CPU cpu
  have hVCPU : decodeOpt unmarshalVCPU (vcpu.map marshalVCPU) = some vcpu :=
    decodeOpt_map_inst (fun a _ => roundtrip_VCPU a)
  have hCT : decodeOpt unmarshalCPUTune (ct.map marshalCPUTune) = some ct :=
    decodeOpt_map_inst (fun a _ => roundtrip_CPUTune a)
  have hNT : decodeOpt unmarshalNUMATune (nt.map marshalNUMATune) = some nt :=
    decodeOpt_map_inst (fun a _ => roundtrip_NUMATune a)
  have hIOT : decodeOpt unmarshalIOThreadsElem (iot.map marshalIOThreadsElem) = some iot :=
    decodeOpt_map_inst (fun a _ => roundtrip_IOThreadsElem a)
  have hSI : decodeOpt unmarshalSysInfo (si.map marshalSysInfo) = some si :=
    decodeOpt_map_inst (fun a _ => roundtrip_SysInfo a)
  have hFT : decodeOpt unmarshalFeatures (fts.map marshalFeatures) = some fts :=
    decodeOpt_map_inst (fun a _ => roundtrip_Features a)
  have hMD := roundtrip_Metadata md
  have hDVS := roundtrip_Devices dvs hdvs
  have hLS : decodeOpt unmarshalLaunchSecurity
      (lsec.map (marshalLaunchSecurityAs "launchSecurity")) = some lsec := by
    apply decodeOpt_map_inst
    intro a ha
    apply roundtrip_LaunchSecurity
    rw [ha] at hls
    exact hls
  simp +decide [unmarshalDomainSpec, marshalDomainSpec, hroot, getStr, attrsOf, childrenOf,
    lookupAttr_collectAttrs, List.find?_cons_of_pos, List.find?_cons_of_neg, strOpt_getD,
    List.append_assoc, List.cons_append, findNamed, nodeName_elem, decodeDefault,
    findNamed_oChild_skip, findNamed_oChild_hit, findNamed_oChild_none',
    findNamed_oChild_self,
    nodeName_marshalCPU, nodeName_marshalVCPU, nodeName_marshalCPUTune,
    nodeName_marshalNUMATune, nodeName_marshalIOThreadsElem, nodeName_marshalSysInfo,
    nodeName_marshalFeatures, nodeName_marshalMetadata, nodeName_marshalDevices,
    nodeName_marshalLaunchSecurityAs,
    hCPU, hVCPU, hCT, hNT, hIOT, hSI, hFT, hMD, hDVS, hLS]

/-! #### The architecture defaulter -/

theorem wf_defaultMemBalloon (arch : String) :
    wfMemBalloon (defaultMemBalloon arch) = true := by
  unfold defaultMemBalloon
  split <;> decide

theorem wf_SetObjectDefaults (arch : String) (d : Domain) (h : wfDomainSpec d.Spec = true) :
    wfDomainSpec (SetObjectDefaults_Domain arch d).Spec = true := by
  unfold SetObjectDefaults_Domain
  split
  · obtain ⟨ns, nm, spec⟩ := d
    obtain ⟨xn, xns, ty, cpu, vcpu, ct, nt, iot, dvs, fts, si, md, lsec⟩ := spec
    obtain ⟨ds, ins, vs, cs, ws, rng, ctl, bal, vk⟩ := dvs
    simp only [wfDomainSpec, wfDevices, Bool.and_eq_true] at h ⊢
    obtain ⟨⟨hxn, ⟨⟨⟨hds, hins⟩, hws⟩, hbal⟩⟩, hls⟩ := h
    refine ⟨⟨hxn, ⟨⟨⟨?_, ?_⟩, ?_⟩, ?_⟩⟩, ?_⟩ <;>
      simp only [SetObjectDefaults_DomainSpec]
    · exact hds
    · exact hins
    · exact hws
    · cases bal with
      | none => simpa using wf_defaultMemBalloon arch
      | some b => simpa using hbal
    · exact hls
  · exact h

/-- The defaulting pass at the spec level is idempotent. -/
theorem SetObjectDefaults_DomainSpec_idem (arch : String) (s : DomainSpec) :
    SetObjectDefaults_DomainSpec arch (SetObjectDefaults_DomainSpec arch s)
      = SetObjectDefaults_DomainSpec arch s := by
  obtain ⟨xn, xns, ty, cpu, vcpu, ct, nt, iot, dvs, fts, si, md, lsec⟩ := s
  obtain ⟨ds, ins, vs, cs, ws, rng, ctl, bal, vk⟩ := dvs
  cases bal <;> by_cases hcs : cs.isEmpty <;>
    simp +decide [SetObjectDefaults_DomainSpec, hcs]

/-! #### Claim theorems for the codec -/

/-- C1: unmarshalling the XML produced by marshalling a domain spec built by
`NewMinimalDomainSpec` — and, after defaulting for any of amd64, arm64,
ppc64le, any reachable domain spec — yields a spec structurally equal to the
input, modulo only the root element's local name being normalized to
`domain`; the default namespace is the fixed constant, applied uniformly by
the constructor and preserved by the codec. -/
theorem domainspec_xml_roundtrip :
    (∀ nm : String,
      unmarshalDomainSpec (marshalDomainSpec (NewMinimalDomainSpec nm))
        = some { NewMinimalDomainSpec nm with XMLName := "domain" }
      ∧ (NewMinimalDomainSpec nm).XmlNS = nsConst)
    ∧ (∀ arch : String, ∀ d : Domain, wfDomainSpec d.Spec = true →
        arch = "amd64" ∨ arch = "arm64" ∨ arch = "ppc64le" →
        unmarshalDomainSpec (marshalDomainSpec (SetObjectDefaults_Domain arch d).Spec)
          = some { (SetObjectDefaults_Domain arch d).Spec with XMLName := "domain" }) := by
  constructor
  · intro nm
    exact ⟨roundtrip_DomainSpec _ rfl, rfl⟩
  · intro arch d hwf harch
    exact roundtrip_DomainSpec _ (wf_SetObjectDefaults arch d hwf)

/-- C1 (witness): the example domain of the test suite, defaulted for amd64,
round trips exactly. -/
theorem domainspec_xml_roundtrip_witness :
    unmarshalDomainSpec (marshalDomainSpec (SetObjectDefaults_Domain "amd64" exampleDomain).Spec)
      = some { (SetObjectDefaults_Domain "amd64" exampleDomain).Spec with XMLName := "domain" } :=
  domainspec_xml_roundtrip.2 "amd64" exampleDomain (by decide) (Or.inl rfl)

/-- C6: the architecture defaulter is idempotent: applying
`SetObjectDefaults_Domain` twice for the same architecture identifier gives
the same result as applying it once, for every domain and every identifier. -/
theorem defaulter_idempotent (arch : String) (d : Domain) :
    SetObjectDefaults_Domain arch (SetObjectDefaults_Domain arch d)
      = SetObjectDefaults_Domain arch d := by
  obtain ⟨ns, nm, spec⟩ := d
  by_cases hc : arch = "amd64" ∨ arch = "arm64" ∨ arch = "ppc64le"
  · simp [SetObjectDefaults_Domain, hc, SetObjectDefaults_DomainSpec_idem]
  · simp [SetObjectDefaults_Domain, hc]

/-- C6 (witness): defaulting the example domain twice for ppc64le equals
defaulting it once. -/
theorem defaulter_idempotent_witness :
    SetObjectDefaults_Domain "ppc64le" (SetObjectDefaults_Domain "ppc64le" exampleDomain)
      = SetObjectDefaults_Domain "ppc64le" exampleDomain :=
  defaulter_idempotent "ppc64le" exampleDomain

/-- C3: whenever the ballooning device of a domain spec has model `"none"`,
the marshalled XML's `<memballoon>` element carries no `<stats>` child at
all, even when the in-memory struct still holds a stats value. -/
theorem memballoon_none_suppresses_stats (d : DomainSpec) (mb : MemBalloon)
    (h1 : d.Devices.Ballooning = some mb) (h2 : mb.Model = "none") :
    findNamed "devices" (childrenOf (marshalDomainSpec d)) = some (marshalDevices d.Devices)
    ∧ findNamed "memballoon" (childrenOf (marshalDevices d.Devices))
        = some (marshalMemBalloon mb)
    ∧ allNamed "stats" (childrenOf (marshalMemBalloon mb)) = [] := by
  refine ⟨?_, ?_, ?_⟩
  · simp +decide [marshalDomainSpec, childrenOf, List.append_assoc, List.cons_append,
      findNamed, nodeName_elem, findNamed_oChild_skip, findNamed_oChild_none',
      nodeName_marshalCPU, nodeName_marshalVCPU, nodeName_marshalCPUTune,
      nodeName_marshalNUMATune, nodeName_marshalIOThreadsElem, nodeName_marshalSysInfo,
      nodeName_marshalFeatures, nodeName_marshalMetadata, nodeName_marshalDevices,
      nodeName_marshalLaunchSecurityAs]
  · simp +decide [marshalDevices, childrenOf, List.append_assoc, h1, oChild_some_eq,
      findNamed, findNamed_map_skip, findNamed_oChild_skip, findNamed_oChild_none',
      nodeName_marshalDisk, nodeName_marshalInput, nodeName_marshalVideo,
      nodeName_marshalConsole, nodeName_marshalWatchdog, nodeName_marshalRng,
      nodeName_marshalController, nodeName_marshalMemBalloon, nodeName_marshalVSOCK]
  · simp +decide [marshalMemBalloon, childrenOf, h2, allNamed]

/-- C3 (witness): the example domain carrying a `"none"` memballoon with an
attached stats value emits a stats-free `<memballoon>`. -/
theorem memballoon_none_suppresses_stats_witness :
    findNamed "devices" (childrenOf (marshalDomainSpec exampleDomainNoneBalloon))
        = some (marshalDevices exampleDomainNoneBalloon.Devices)
    ∧ findNamed "memballoon" (childrenOf (marshalDevices exampleDomainNoneBalloon.Devices))
        = some (marshalMemBalloon noneBalloonStats)
    ∧ allNamed "stats" (childrenOf (marshalMemBalloon noneBalloonStats)) = [] :=
  memballoon_none_suppresses_stats exampleDomainNoneBalloon noneBalloonStats rfl rfl

theorem any_isNamed_collectTexts (n : String) (l : List (String × String)) :
    (collectTexts l).any (isNamed n) = l.any (fun p => p.1 == n && p.2 != "") := by
  induction l with
  | nil => rfl
  | cons p t ih =>
    obtain ⟨tg, s⟩ := p
    simp only [collectTexts, List.any_append, List.any_cons, ih]
    unfold optText
    split
    · simp_all
    · rename_i hne
      have hs : (s != "") = true := by simpa [bne_iff_ne] using hne
      simp only [List.any_cons, List.any_nil, isNamed, nodeName, hs, Bool.and_true,
        Bool.or_false]

/-- C5: CPU-tune pin lists and NUMA-tune memnode/cell lists are
order-preserving in both directions: encoding then decoding returns exactly
the original sequences (hence encoding preserves insertion order and the
decoded order is the document order), and decoding a document whose memnode
cell IDs appear as [2, 0] keeps them as [2, 0] — no implicit sorting by any
numeric key ever occurs. -/
theorem cputune_numatune_order_preserved :
    (∀ ct : CPUTune, unmarshalCPUTune (marshalCPUTune ct) = some ct)
    ∧ (∀ nt : NUMATune, unmarshalNUMATune (marshalNUMATune nt) = some nt)
    ∧ (∀ nm : NUMA, unmarshalNUMA (marshalNUMA nm) = some nm)
    ∧ unmarshalNUMATune (XNode.elem "numatune" []
        [XNode.elem "memory" [("mode", "strict"), ("nodeset", "1-2")] [],
         XNode.elem "memnode" [("cellid", "2"), ("mode", "strict"), ("nodeset", "1")] [],
         XNode.elem "memnode" [("cellid", "0"), ("mode", "preferred"), ("nodeset", "2")] []])
        = some ⟨⟨"strict", "1-2"⟩, [⟨2, "strict", "1"⟩, ⟨0, "preferred", "2"⟩]⟩ := by
  refine ⟨roundtrip_CPUTune, roundtrip_NUMATune, roundtrip_NUMA, by decide⟩

/-- C4: marshalling a launch-security value emits the discriminator as the
`type` attribute and each AMD payload field as its own fixed camelCase child
element exactly when the field is non-empty; a payload with only `Policy`
set yields exactly that one child; a nil AMD pointer and an all-empty AMD
payload both yield the wrapping element with no children. -/
theorem launchsecurity_field_omission :
    (∀ t : String, ∀ a : AMDLaunchSecurity,
      getStr "type" (marshalLaunchSecurityAs "LaunchSecurity" ⟨t, some a⟩) = t
      ∧ (hasChildNamed "policy" (marshalLaunchSecurityAs "LaunchSecurity" ⟨t, some a⟩)
          = true ↔ a.Policy ≠ "")
      ∧ (hasChildNamed "authorKey" (marshalLaunchSecurityAs "LaunchSecurity" ⟨t, some a⟩)
          = true ↔ a.AuthorKey ≠ "")
      ∧ (hasChildNamed "vcek" (marshalLaunchSecurityAs "LaunchSecurity" ⟨t, some a⟩)
          = true ↔ a.VCEK ≠ "")
      ∧ (hasChildNamed "idAuth" (marshalLaunchSecurityAs "LaunchSecurity" ⟨t, some a⟩)
          = true ↔ a.IdAuth ≠ "")
      ∧ (hasChildNamed "idBlock" (marshalLaunchSecurityAs "LaunchSecurity" ⟨t, some a⟩)
          = true ↔ a.IdBlock ≠ "")
      ∧ (hasChildNamed "hostData" (marshalLaunchSecurityAs "LaunchSecurity" ⟨t, some a⟩)
          = true ↔ a.HostData ≠ "")
      ∧ (hasChildNamed "dhCert" (marshalLaunchSecurityAs "LaunchSecurity" ⟨t, some a⟩)
          = true ↔ a.DHCert ≠ "")
      ∧ (hasChildNamed "session" (marshalLaunchSecurityAs "LaunchSecurity" ⟨t, some a⟩)
          = true ↔ a.Session ≠ "")
      ∧ (hasChildNamed "cbitpos" (marshalLaunchSecurityAs "LaunchSecurity" ⟨t, some a⟩)
          = true ↔ a.Cbitpos ≠ "")
      ∧ (hasChildNamed "reducedPhysBits" (marshalLaunchSecurityAs "LaunchSecurity" ⟨t, some a⟩)
          = true ↔ a.ReducedPhysBits ≠ ""))
    ∧ (∀ t p : String,
        childrenOf (marshalLaunchSecurityAs "LaunchSecurity" ⟨t, some { emptyAMD with Policy := p }⟩)
          = if p = "" then [] else [XNode.elem "policy" [] [XNode.text p]])
    ∧ (∀ t : String, childrenOf (marshalLaunchSecurityAs "LaunchSecurity" ⟨t, none⟩) = [])
    ∧ (∀ t : String,
        childrenOf (marshalLaunchSecurityAs "LaunchSecurity" ⟨t, some emptyAMD⟩) = []) := by
  refine ⟨fun t a => ?_, fun t p => ?_, fun t => ?_, fun t => ?_⟩
  · refine ⟨?_, ?_, ?_, ?_, ?_, ?_, ?_, ?_, ?_, ?_, ?_⟩ <;>
      simp +decide [marshalLaunchSecurityAs, marshalAMDChildren, hasChildNamed, childrenOf,
        attrsOf, getStr, lookupAttr_collectAttrs, List.find?_cons_of_pos, strOpt_getD,
        any_isNamed_collectTexts, bne_iff_ne]
  · simp +decide [marshalLaunchSecurityAs, marshalAMDChildren, childrenOf, collectTexts,
      optText, emptyAMD]
  · rfl
  · simp +decide [marshalLaunchSecurityAs, marshalAMDChildren, childrenOf, collectTexts,
      optText, emptyAMD]

/-! #### The object-graph memory model: basic facts -/

theorem lookupObj_append_lt (h ext : Heap) (i : Nat) (hi : i < h.length) :
    lookupObj (h ++ ext) i = lookupObj h i := by
  unfold lookupObj
  exact List.getD_append h ext ⟨[]⟩ i hi

theorem lookupObj_append_len (h : Heap) (o : GoObj) :
    lookupObj (h ++ [o]) h.length = o := by
  unfold lookupObj
  simp [List.getD, List.getElem?_append_right]

theorem lookupObj_set_ne (h : Heap) (j i : Nat) (o : GoObj) (hji : j ≠ i) :
    lookupObj (setObj h j o) i = lookupObj h i := by
  unfold lookupObj setObj
  simp [List.getD, List.getElem?_set_ne hji]

theorem refBelowValB_mono {v : GoVal} {n m : Nat} (h : refBelowValB v n = true) (hnm : n ≤ m) :
    refBelowValB v m = true := by
  cases v <;> simp_all [refBelowValB] <;> omega

theorem refAtLeastValB_mono {v : GoVal} {n m : Nat}
    (hm : refAtLeastValB v m = true) (hnm : n ≤ m) : refAtLeastValB v n = true := by
  cases v <;> simp_all [refAtLeastValB] <;> omega

theorem orderedFromB_getD : ∀ (t : List GoObj) (i j : Nat), orderedFromB i t = true →
    j < t.length → refsBelowB (t.getD j ⟨[]⟩) (i + j) = true := by
  intro t
  induction t with
  | nil => intro i j _ hj; simp at hj
  | cons o t ih =>
    intro i j ho hj
    simp only [orderedFromB, Bool.and_eq_true] at ho
    cases j with
    | zero => simpa using ho.1
    | succ j =>
      have hj' : j < t.length := by simpa using hj
      have h2 := ih (i + 1) j ho.2 hj'
      have harith : i + 1 + j = i + (j + 1) := by omega
      rw [harith] at h2
      simpa [List.getD_cons_succ] using h2

theorem orderedHeapB_getD (h : Heap) (j : Nat) (hj : j < h.length)
    (ho : orderedHeapB h = true) : refsBelowB (lookupObj h j) j = true := by
  have := orderedFromB_getD h 0 j ho hj
  simpa [lookupObj] using this

theorem orderedFromB_append_one : ∀ (t : List GoObj) (i : Nat) (o : GoObj),
    orderedFromB i t = true → refsBelowB o (i + t.length) = true →
    orderedFromB i (t ++ [o]) = true := by
  intro t
  induction t with
  | nil => intro i o _ hb; simpa [orderedFromB] using hb
  | cons x t ih =>
    intro i o ho hb
    simp only [orderedFromB, Bool.and_eq_true] at ho
    simp only [List.cons_append, orderedFromB, Bool.and_eq_true]
    refine ⟨ho.1, ih (i + 1) o ho.2 ?_⟩
    have harith : i + 1 + t.length = i + (t.length + 1) := by omega
    rw [harith]
    simpa using hb

theorem orderedHeapB_append_one (h : Heap) (o : GoObj) (ho : orderedHeapB h = true)
    (hb : refsBelowB o h.length = true) : orderedHeapB (h ++ [o]) = true :=
  orderedFromB_append_one h 0 o ho (by simpa using hb)

/-- Read one field's value tree. -/
def readField (f : Nat) (h : Heap) : String × GoVal → String × GoTree := fun p => (p.1,
  match p.2 with
  | GoVal.ref b => readObj f h b
  | GoVal.scalar s => GoTree.scalar s
  | GoVal.nil => GoTree.nil)

theorem readObj_succ (f : Nat) (h : Heap) (a : Nat) :
    readObj (f + 1) h a = GoTree.node ((lookupObj h a).fields.map (readField f h)) := rfl

theorem readField_ref (f : Nat) (h : Heap) (k : String) (b : Nat) :
    readField f h (k, GoVal.ref b) = (k, readObj f h b) := rfl

theorem readObj_agree : ∀ (f : Nat) (h1 h2 : Heap) (a : Nat), orderedHeapB h1 = true →
    a < h1.length → (∀ i, i < h1.length → lookupObj h2 i = lookupObj h1 i) →
    readObj f h2 a = readObj f h1 a := by
  intro f
  induction f with
  | zero => intro h1 h2 a _ _ _; rfl
  | succ f ih =>
    intro h1 h2 a hord ha hagree
    rw [readObj_succ, readObj_succ, hagree a ha]
    have hrefs := orderedHeapB_getD h1 a ha hord
    simp only [refsBelowB, List.all_eq_true] at hrefs
    congr 1
    apply List.map_congr_left
    intro p hp
    obtain ⟨k, v⟩ := p
    cases v with
    | ref b =>
      have hb : b < a := by simpa [refBelowValB] using hrefs (k, GoVal.ref b) hp
      rw [readField_ref, readField_ref, ih h1 h2 b hord (by omega) hagree]
    | scalar s => rfl
    | nil => rfl

theorem lookupObj_ge (h : Heap) (i : Nat) (hi : h.length ≤ i) : lookupObj h i = ⟨[]⟩ :=
  List.getD_eq_default h ⟨[]⟩ hi

theorem orderedFromB_append_inv : ∀ (t : List GoObj) (i : Nat) (u : List GoObj),
    orderedFromB i (t ++ u) = true → orderedFromB i t = true := by
  intro t
  induction t with
  | nil => intro i u _; rfl
  | cons x t ih =>
    intro i u hh
    simp only [List.cons_append, orderedFromB, Bool.and_eq_true] at hh ⊢
    exact ⟨hh.1, ih (i + 1) u hh.2⟩

theorem copyFieldsWith_extends (rec : Heap → Nat → Heap × Nat)
    (hrec : ∀ h b, ∃ ext, (rec h b).1 = h ++ ext) :
    ∀ (l : List (String × GoVal)) (h0 : Heap),
      ∃ ext, (copyFieldsWith rec h0 l).1 = h0 ++ ext := by
  intro l
  induction l with
  | nil => intro h0; exact ⟨[], by simp [copyFieldsWith]⟩
  | cons p rest ihl =>
    intro h0
    obtain ⟨k, v⟩ := p
    cases v with
    | ref b =>
      obtain ⟨e1, he1⟩ := hrec h0 b
      obtain ⟨e2, he2⟩ := ihl (rec h0 b).1
      refine ⟨e1 ++ e2, ?_⟩
      simp only [copyFieldsWith]
      rw [he2, he1, List.append_assoc]
    | scalar s =>
      obtain ⟨e2, he2⟩ := ihl h0
      exact ⟨e2, by simp only [copyFieldsWith]; rw [he2]⟩
    | nil =>
      obtain ⟨e2, he2⟩ := ihl h0
      exact ⟨e2, by simp only [copyFieldsWith]; rw [he2]⟩

theorem copyObj_extends : ∀ (fuel : Nat) (h : Heap) (a : Nat),
    ∃ ext, (copyObj fuel h a).1 = h ++ ext := by
  intro fuel
  induction fuel with
  | zero => intro h a; exact ⟨[], by simp [copyObj]⟩
  | succ fuel ih =>
    intro h a
    obtain ⟨e, he⟩ := copyFieldsWith_extends (copyObj fuel) ih (lookupObj h a).fields h
    refine ⟨e ++ [⟨(copyFieldsWith (copyObj fuel) h (lookupObj h a).fields).2⟩], ?_⟩
    simp only [copyObj]
    rw [he, List.append_assoc]

theorem copyObj_len_le (fuel : Nat) (h : Heap) (a : Nat) :
    h.length ≤ (copyObj fuel h a).1.length := by
  obtain ⟨e, he⟩ := copyObj_extends fuel h a
  simp [he]

theorem copyFieldsWith_len_le (fuel : Nat) (l : List (String × GoVal)) (h0 : Heap) :
    h0.length ≤ (copyFieldsWith (copyObj fuel) h0 l).1.length := by
  obtain ⟨e, he⟩ := copyFieldsWith_extends (copyObj fuel) (copyObj_extends fuel) l h0
  simp [he]

theorem copy_ordered : ∀ (fuel : Nat) (h : Heap) (a : Nat), orderedHeapB h = true →
    a < h.length →
    orderedHeapB (copyObj fuel h a).1 = true
    ∧ (copyObj fuel h a).2 < (copyObj fuel h a).1.length := by
  intro fuel
  induction fuel with
  | zero =>
    intro h a hord ha
    exact ⟨by simpa [copyObj] using hord, by simpa [copyObj] using ha⟩
  | succ fuel ih =>
    have hf : ∀ (l : List (String × GoVal)) (h0 : Heap), orderedHeapB h0 = true →
        (∀ p ∈ l, refBelowValB p.2 h0.length = true) →
        orderedHeapB (copyFieldsWith (copyObj fuel) h0 l).1 = true
        ∧ (∀ p ∈ (copyFieldsWith (copyObj fuel) h0 l).2,
            refBelowValB p.2 (copyFieldsWith (copyObj fuel) h0 l).1.length = true) := by
      intro l
      induction l with
      | nil =>
        intro h0 hord _
        exact ⟨by simpa [copyFieldsWith] using hord, by simp [copyFieldsWith]⟩
      | cons p rest ihl =>
        intro h0 hord hrefs
        obtain ⟨k, v⟩ := p
        have hrest : ∀ q ∈ rest, refBelowValB q.2 h0.length = true :=
          fun q hq => hrefs q (List.mem_cons_of_mem _ hq)
        cases v with
        | ref b =>
          have hb : b < h0.length := by
            simpa [refBelowValB] using hrefs (k, GoVal.ref b) (List.mem_cons_self _ _)
          obtain ⟨hordA, hbndA⟩ := ih h0 b hord hb
          have hlenA : h0.length ≤ (copyObj fuel h0 b).1.length := copyObj_len_le fuel h0 b
          have hrestA : ∀ q ∈ rest, refBelowValB q.2 (copyObj fuel h0 b).1.length = true :=
            fun q hq => refBelowValB_mono (hrest q hq) hlenA
          obtain ⟨hordF, hrefsF⟩ := ihl (copyObj fuel h0 b).1 hordA hrestA
          have hlenF : (copyObj fuel h0 b).1.length
              ≤ (copyFieldsWith (copyObj fuel) (copyObj fuel h0 b).1 rest).1.length :=
            copyFieldsWith_len_le fuel rest (copyObj fuel h0 b).1
          constructor
          · simpa [copyFieldsWith] using hordF
          · intro q hq
            simp only [copyFieldsWith, List.mem_cons] at hq
            rcases hq with rfl | hq
            · simp only [copyFieldsWith, refBelowValB]
              simp only [decide_eq_true_eq]
              omega
            · simpa [copyFieldsWith] using hrefsF q hq
        | scalar s =>
          obtain ⟨hordF, hrefsF⟩ := ihl h0 hord hrest
          constructor
          · simpa [copyFieldsWith] using hordF
          · intro q hq
            simp only [copyFieldsWith, List.mem_cons] at hq
            rcases hq with rfl | hq
            · simp [refBelowValB]
            · simpa [copyFieldsWith] using hrefsF q hq
        | nil =>
          obtain ⟨hordF, hrefsF⟩ := ihl h0 hord hrest
          constructor
          · simpa [copyFieldsWith] using hordF
          · intro q hq
            simp only [copyFieldsWith, List.mem_cons] at hq
            rcases hq with rfl | hq
            · simp [refBelowValB]
            · simpa [copyFieldsWith] using hrefsF q hq
    intro h a hord ha
    have hrefs0 : ∀ p ∈ (lookupObj h a).fields, refBelowValB p.2 h.length = true := by
      have hb := orderedHeapB_getD h a ha hord
      simp only [refsBelowB, List.all_eq_true] at hb
      exact fun p hp => refBelowValB_mono (hb p hp) (le_of_lt ha)
    obtain ⟨hordF, hrefsF⟩ := hf (lookupObj h a).fields h hord hrefs0
    constructor
    · simp only [copyObj]
      apply orderedHeapB_append_one _ _ hordF
      simp only [refsBelowB, List.all_eq_true]
      exact hrefsF
    · simp [copyObj]

theorem refsAtLeastB_empty (n : Nat) : refsAtLeastB ⟨[]⟩ n = true := by
  simp [refsAtLeastB]

theorem copy_fresh : ∀ (fuel : Nat) (h : Heap) (a : Nat), orderedHeapB h = true →
    a < h.length → a < fuel →
    h.length ≤ (copyObj fuel h a).2
    ∧ (∀ i, h.length ≤ i →
        refsAtLeastB (lookupObj (copyObj fuel h a).1 i) h.length = true) := by
  intro fuel
  induction fuel with
  | zero => intro h a _ _ hfa; omega
  | succ fuel ih =>
    have hf : ∀ (l : List (String × GoVal)) (h0 : Heap) (n : Nat), orderedHeapB h0 = true →
        n ≤ h0.length →
        (∀ i, n ≤ i → refsAtLeastB (lookupObj h0 i) n = true) →
        (∀ p ∈ l, refBelowValB p.2 h0.length = true) →
        (∀ p ∈ l, ∀ b, p.2 = GoVal.ref b → b < fuel) →
        (∀ i, n ≤ i →
          refsAtLeastB (lookupObj (copyFieldsWith (copyObj fuel) h0 l).1 i) n = true)
        ∧ (∀ p ∈ (copyFieldsWith (copyObj fuel) h0 l).2, refAtLeastValB p.2 n = true) := by
      intro l
      induction l with
      | nil =>
        intro h0 n _ _ hfresh _ _
        exact ⟨by simpa [copyFieldsWith] using hfresh, by simp [copyFieldsWith]⟩
      | cons p rest ihl =>
        intro h0 n hord hn hfresh hrefs hrfuel
        obtain ⟨k, v⟩ := p
        have hrest : ∀ q ∈ rest, refBelowValB q.2 h0.length = true :=
          fun q hq => hrefs q (List.mem_cons_of_mem _ hq)
        have hrestfuel : ∀ q ∈ rest, ∀ b, q.2 = GoVal.ref b → b < fuel :=
          fun q hq => hrfuel q (List.mem_cons_of_mem _ hq)
        cases v with
        | ref b =>
          have hb : b < h0.length := by
            simpa [refBelowValB] using hrefs (k, GoVal.ref b) (List.mem_cons_self _ _)
          have hbf : b < fuel := hrfuel (k, GoVal.ref b) (List.mem_cons_self _ _) b rfl
          obtain ⟨hrootA, hfreshA⟩ := ih h0 b hord hb hbf
          obtain ⟨hordA, hbndA⟩ := copy_ordered fuel h0 b hord hb
          obtain ⟨eA, heA⟩ := copyObj_extends fuel h0 b
          have hlenA : h0.length ≤ (copyObj fuel h0 b).1.length := copyObj_len_le fuel h0 b
          have hfreshA' : ∀ i, n ≤ i →
              refsAtLeastB (lookupObj (copyObj fuel h0 b).1 i) n = true := by
            intro i hi
            by_cases hlt : i < h0.length
            · rw [heA, lookupObj_append_lt h0 eA i hlt]
              exact hfresh i hi
            · have h2 := hfreshA i (by omega)
              simp only [refsAtLeastB, List.all_eq_true] at h2 ⊢
              exact fun q hq => refAtLeastValB_mono (h2 q hq) hn
          have hrestA : ∀ q ∈ rest, refBelowValB q.2 (copyObj fuel h0 b).1.length = true :=
            fun q hq => refBelowValB_mono (hrest q hq) hlenA
          obtain ⟨hfreshF, hrefsF⟩ := ihl (copyObj fuel h0 b).1 n hordA (le_trans hn hlenA)
            hfreshA' hrestA hrestfuel
          constructor
          · intro i hi
            simpa [copyFieldsWith] using hfreshF i hi
          · intro q hq
            simp only [copyFieldsWith, List.mem_cons] at hq
            rcases hq with rfl | hq
            · simp only [refAtLeastValB, decide_eq_true_eq]
              omega
            · simpa [copyFieldsWith] using hrefsF q hq
        | scalar s =>
          obtain ⟨hfreshF, hrefsF⟩ := ihl h0 n hord hn hfresh hrest hrestfuel
          constructor
          · intro i hi
            simpa [copyFieldsWith] using hfreshF i hi
          · intro q hq
            simp only [copyFieldsWith, List.mem_cons] at hq
            rcases hq with rfl | hq
            · simp [refAtLeastValB]
            · simpa [copyFieldsWith] using hrefsF q hq
        | nil =>
          obtain ⟨hfreshF, hrefsF⟩ := ihl h0 n hord hn hfresh hrest hrestfuel
          constructor
          · intro i hi
            simpa [copyFieldsWith] using hfreshF i hi
          · intro q hq
            simp only [copyFieldsWith, List.mem_cons] at hq
            rcases hq with rfl | hq
            · simp [refAtLeastValB]
            · simpa [copyFieldsWith] using hrefsF q hq
    intro h a hord ha hfa
    have hrefs0 : ∀ p ∈ (lookupObj h a).fields, refBelowValB p.2 h.length = true := by
      have hb := orderedHeapB_getD h a ha hord
      simp only [refsBelowB, List.all_eq_true] at hb
      exact fun p hp => refBelowValB_mono (hb p hp) (le_of_lt ha)
    have hrfuel0 : ∀ p ∈ (lookupObj h a).fields, ∀ b, p.2 = GoVal.ref b → b < fuel := by
      have hb := orderedHeapB_getD h a ha hord
      simp only [refsBelowB, List.all_eq_true] at hb
      intro p hp b hpb
      have := hb p hp
      rw [hpb] at this
      simp only [refBelowValB, decide_eq_true_eq] at this
      omega
    have hfresh0 : ∀ i, h.length ≤ i → refsAtLeastB (lookupObj h i) h.length = true := by
      intro i hi
      rw [lookupObj_ge h i hi]
      exact refsAtLeastB_empty h.length
    obtain ⟨hfreshF, hrefsF⟩ := hf (lookupObj h a).fields h h.length hord le_rfl hfresh0
      hrefs0 hrfuel0
    have hlenF : h.length
        ≤ (copyFieldsWith (copyObj fuel) h (lookupObj h a).fields).1.length :=
      copyFieldsWith_len_le fuel (lookupObj h a).fields h
    constructor
    · simp only [copyObj]
      omega
    · intro i hi
      simp only [copyObj]
      by_cases hlt :
          i < (copyFieldsWith (copyObj fuel) h (lookupObj h a).fields).1.length
      · rw [lookupObj_append_lt _ _ i hlt]
        exact hfreshF i hi
      · by_cases heq :
            i = (copyFieldsWith (copyObj fuel) h (lookupObj h a).fields).1.length
        · rw [heq, lookupObj_append_len]
          simp only [refsAtLeastB, List.all_eq_true]
          exact hrefsF
        · rw [lookupObj_ge]
          · exact refsAtLeastB_empty h.length
          · simp only [List.length_append, List.length_cons, List.length_nil]
            omega

theorem readField_scalar (f : Nat) (h : Heap) (k s : String) :
    readField f h (k, GoVal.scalar s) = (k, GoTree.scalar s) := rfl

theorem readField_nil (f : Nat) (h : Heap) (k : String) :
    readField f h (k, GoVal.nil) = (k, GoTree.nil) := rfl

theorem copy_exact : ∀ (f : Nat), ∀ (fuel : Nat) (h : Heap) (a : Nat),
    orderedHeapB h = true → a < h.length → a < fuel →
    readObj f (copyObj fuel h a).1 (copyObj fuel h a).2 = readObj f h a := by
  intro f
  induction f with
  | zero => intro fuel h a _ _ _; rfl
  | succ f ihf =>
    intro fuel h a hord ha hfa
    cases fuel with
    | zero => omega
    | succ fuel =>
    have hf : ∀ (l : List (String × GoVal)) (h0 : Heap), orderedHeapB h0 = true →
        (∀ p ∈ l, refBelowValB p.2 h0.length = true) →
        (∀ p ∈ l, ∀ b, p.2 = GoVal.ref b → b < fuel) →
        ((copyFieldsWith (copyObj fuel) h0 l).2.map
            (readField f (copyFieldsWith (copyObj fuel) h0 l).1)
          = l.map (readField f h0))
        ∧ (∀ p ∈ (copyFieldsWith (copyObj fuel) h0 l).2,
            refBelowValB p.2 (copyFieldsWith (copyObj fuel) h0 l).1.length = true) := by
      intro l
      induction l with
      | nil => intro h0 _ _ _; exact ⟨by simp [copyFieldsWith], by simp [copyFieldsWith]⟩
      | cons p rest ihl =>
        intro h0 hord0 hrefs hrfuel
        obtain ⟨k, v⟩ := p
        have hrest : ∀ q ∈ rest, refBelowValB q.2 h0.length = true :=
          fun q hq => hrefs q (List.mem_cons_of_mem _ hq)
        have hrestfuel : ∀ q ∈ rest, ∀ b, q.2 = GoVal.ref b → b < fuel :=
          fun q hq => hrfuel q (List.mem_cons_of_mem _ hq)
        cases v with
        | ref b =>
          have hb : b < h0.length := by
            simpa [refBelowValB] using hrefs (k, GoVal.ref b) (List.mem_cons_self _ _)
          have hbf : b < fuel := hrfuel (k, GoVal.ref b) (List.mem_cons_self _ _) b rfl
          obtain ⟨hordA, hbndA⟩ := copy_ordered fuel h0 b hord0 hb
          have hlenA : h0.length ≤ (copyObj fuel h0 b).1.length := copyObj_len_le fuel h0 b
          have hrestA : ∀ q ∈ rest, refBelowValB q.2 (copyObj fuel h0 b).1.length = true :=
            fun q hq => refBelowValB_mono (hrest q hq) hlenA
          obtain ⟨hmapF, hrefsF⟩ := ihl (copyObj fuel h0 b).1 hordA hrestA hrestfuel
          obtain ⟨eF, heF⟩ := copyFieldsWith_extends (copyObj fuel) (copyObj_extends fuel)
            rest (copyObj fuel h0 b).1
          have hagreeF : ∀ i, i < (copyObj fuel h0 b).1.length →
              lookupObj (copyFieldsWith (copyObj fuel) (copyObj fuel h0 b).1 rest).1 i
                = lookupObj (copyObj fuel h0 b).1 i := by
            intro i hi
            rw [heF, lookupObj_append_lt _ _ i hi]
          obtain ⟨eA, heA⟩ := copyObj_extends fuel h0 b
          have hagreeA : ∀ i, i < h0.length →
              lookupObj (copyObj fuel h0 b).1 i = lookupObj h0 i := by
            intro i hi
            rw [heA, lookupObj_append_lt _ _ i hi]
          constructor
          · simp only [copyFieldsWith, List.map_cons]
            congr 1
            · -- head field
              rw [readField_ref, readField_ref]
              rw [readObj_agree f (copyObj fuel h0 b).1 _ (copyObj fuel h0 b).2
                hordA hbndA hagreeF]
              rw [ihf fuel h0 b hord0 hb hbf]
            · -- tail
              rw [hmapF]
              apply List.map_congr_left
              intro q hq
              obtain ⟨k', v'⟩ := q
              cases v' with
              | ref b' =>
                have hb' : b' < h0.length := by
                  simpa [refBelowValB] using hrest (k', GoVal.ref b') hq
                rw [readField_ref, readField_ref,
                  readObj_agree f h0 _ b' hord0 hb' hagreeA]
              | scalar s => rfl
              | nil => rfl
          · intro q hq
            simp only [copyFieldsWith, List.mem_cons] at hq
            rcases hq with rfl | hq
            · simp only [copyFieldsWith, refBelowValB, decide_eq_true_eq]
              have := copyFieldsWith_len_le fuel rest (copyObj fuel h0 b).1
              omega
            · simpa [copyFieldsWith] using hrefsF q hq
        | scalar s =>
          obtain ⟨hmapF, hrefsF⟩ := ihl h0 hord0 hrest hrestfuel
          constructor
          · simp only [copyFieldsWith, List.map_cons, readField_scalar, hmapF]
          · intro q hq
            simp only [copyFieldsWith, List.mem_cons] at hq
            rcases hq with rfl | hq
            · simp [refBelowValB]
            · simpa [copyFieldsWith] using hrefsF q hq
        | nil =>
          obtain ⟨hmapF, hrefsF⟩ := ihl h0 hord0 hrest hrestfuel
          constructor
          · simp only [copyFieldsWith, List.map_cons, readField_nil, hmapF]
          · intro q hq
            simp only [copyFieldsWith, List.mem_cons] at hq
            rcases hq with rfl | hq
            · simp [refBelowValB]
            · simpa [copyFieldsWith] using hrefsF q hq
    have hrefs0 : ∀ p ∈ (lookupObj h a).fields, refBelowValB p.2 h.length = true := by
      have hb := orderedHeapB_getD h a ha hord
      simp only [refsBelowB, List.all_eq_true] at hb
      exact fun p hp => refBelowValB_mono (hb p hp) (le_of_lt ha)
    have hrfuel0 : ∀ p ∈ (lookupObj h a).fields, ∀ b, p.2 = GoVal.ref b → b < fuel := by
      have hb := orderedHeapB_getD h a ha hord
      simp only [refsBelowB, List.all_eq_true] at hb
      intro p hp b hpb
      have h2 := hb p hp
      rw [hpb] at h2
      simp only [refBelowValB, decide_eq_true_eq] at h2
      omega
    obtain ⟨hmapF, hrefsF⟩ := hf (lookupObj h a).fields h hord hrefs0 hrfuel0
    obtain ⟨hordAll, _⟩ := copy_ordered (fuel + 1) h a hord ha
    have hordF : orderedHeapB
        (copyFieldsWith (copyObj fuel) h (lookupObj h a).fields).1 = true := by
      have := hordAll
      simp only [copyObj] at this
      exact orderedFromB_append_inv _ 0 _ this
    show readObj (f + 1)
        ((copyFieldsWith (copyObj fuel) h (lookupObj h a).fields).1
          ++ [⟨(copyFieldsWith (copyObj fuel) h (lookupObj h a).fields).2⟩])
        (copyFieldsWith (copyObj fuel) h (lookupObj h a).fields).1.length
      = readObj (f + 1) h a
    rw [readObj_succ, readObj_succ, lookupObj_append_len]
    congr 1
    have hmapLift :
        (copyFieldsWith (copyObj fuel) h (lookupObj h a).fields).2.map
          (readField f
            ((copyFieldsWith (copyObj fuel) h (lookupObj h a).fields).1
              ++ [⟨(copyFieldsWith (copyObj fuel) h (lookupObj h a).fields).2⟩]))
        = (copyFieldsWith (copyObj fuel) h (lookupObj h a).fields).2.map
            (readField f (copyFieldsWith (copyObj fuel) h (lookupObj h a).fields).1) := by
      apply List.map_congr_left
      intro q hq
      obtain ⟨k', v'⟩ := q
      cases v' with
      | ref b' =>
        have hb' : b'
            < (copyFieldsWith (copyObj fuel) h (lookupObj h a).fields).1.length := by
          simpa [refBelowValB] using hrefsF (k', GoVal.ref b') hq
        rw [readField_ref, readField_ref]
        rw [readObj_agree f (copyFieldsWith (copyObj fuel) h (lookupObj h a).fields).1 _ b'
          hordF hb']
        intro i hi
        rw [lookupObj_append_lt _ _ i hi]
      | scalar s => rfl
      | nil => rfl
    rw [hmapLift, hmapF]

theorem readObj_set_fresh (f : Nat) (h ext : Heap) (a j : Nat) (o : GoObj)
    (hord : orderedHeapB h = true) (ha : a < h.length) (hj : h.length ≤ j) :
    readObj f (setObj (h ++ ext) j o) a = readObj f h a := by
  apply readObj_agree f h _ a hord ha
  intro i hi
  rw [lookupObj_set_ne _ j i o (by omega), lookupObj_append_lt h ext i hi]

/-- C7: deep copy is exact and independent.  On a bottom-up object graph,
`DeepCopy` only appends fresh cells (the original cells are untouched), the
copied root reads back as exactly the same value tree as the original at
every depth, the whole copy lives in the fresh region (its root and every
reference inside the fresh region stay at or above the old heap size), and
mutating any fresh cell — hence any field of the copy — leaves every field
of the original object provably unchanged. -/
theorem DeepCopy_exact_independent (h : Heap) (a : Nat)
    (hord : orderedHeapB h = true) (ha : a < h.length) :
    (∃ ext, (DeepCopy h a).1 = h ++ ext)
    ∧ h.length ≤ (DeepCopy h a).2
    ∧ (∀ f, readObj f (DeepCopy h a).1 (DeepCopy h a).2 = readObj f h a)
    ∧ (∀ i, h.length ≤ i → refsAtLeastB (lookupObj (DeepCopy h a).1 i) h.length = true)
    ∧ (∀ j, h.length ≤ j → ∀ o : GoObj, ∀ f,
        readObj f (setObj (DeepCopy h a).1 j o) a = readObj f h a) := by
  have hfa : a < a + 1 := Nat.lt_succ_self a
  refine ⟨copyObj_extends (a + 1) h a, (copy_fresh (a + 1) h a hord ha hfa).1,
    fun f => copy_exact f (a + 1) h a hord ha hfa,
    (copy_fresh (a + 1) h a hord ha hfa).2, fun j hj o f => ?_⟩
  obtain ⟨ext, hext⟩ := copyObj_extends (a + 1) h a
  show readObj f (setObj (copyObj (a + 1) h a).1 j o) a = readObj f h a
  rw [hext]
  exact readObj_set_fresh f h ext a j o hord ha hj

/-- C7 (witness): the example domain object graph (populated device list,
memballoon chain) at its root cell. -/
theorem DeepCopy_exact_independent_witness :
    (∃ ext, (DeepCopy domainHeapEx 5).1 = domainHeapEx ++ ext)
    ∧ domainHeapEx.length ≤ (DeepCopy domainHeapEx 5).2
    ∧ (∀ f, readObj f (DeepCopy domainHeapEx 5).1 (DeepCopy domainHeapEx 5).2
        = readObj f domainHeapEx 5)
    ∧ (∀ i, domainHeapEx.length ≤ i →
        refsAtLeastB (lookupObj (DeepCopy domainHeapEx 5).1 i) domainHeapEx.length = true)
    ∧ (∀ j, domainHeapEx.length ≤ j → ∀ o : GoObj, ∀ f,
        readObj f (setObj (DeepCopy domainHeapEx 5).1 j o) 5 = readObj f domainHeapEx 5) :=
  DeepCopy_exact_independent domainHeapEx 5 (by decide) (by decide)
